import Mathlib

/-!
Verification of the ratmail offline mail cache and sync/render engine.

This file shallowly embeds the parts of the ratmail source that the checked
properties talk about: the SQLite-backed store operations of
`crates/ratmail-core/src/lib.rs` (tables modelled as Lean lists of row
structures, SQL statements as list transformations), the sync-state merge of
the store-update actor in `crates/ratmail-tui/src/main.rs`, and the
string-rewriting content functions of `crates/ratmail-content/src/lib.rs`
(modelled over `List Char`; the Rust code indexes UTF-8 bytes, and on the
ASCII patterns these algorithms search for the two views coincide).

External crates (`mailparse::dateparse`, `chrono` clocks, SQLite's
`datetime('now')`, `linkify::LinkFinder`, `ammonia`) are not part of the
repository; operations that call them take the corresponding value or
function as an explicit parameter.
-/

namespace Ratmail

/-- Row of the `folder_sync_state` table (struct `FolderSyncState` in
`ratmail-core/src/lib.rs`). -/
structure FolderSyncState where
  folder_id : Int
  uidvalidity : Option Int
  uidnext : Option Int
  last_seen_uid : Option Int
  last_sync_ts : Option Int
  oldest_ts : Option Int
deriving DecidableEq, Repr

/-- The `SyncUpdate` payload carried by `StoreUpdate::AppendMessages`
(`ratmail-tui/src/main.rs`). -/
structure SyncUpdate where
  last_seen_uid : Option Int
  oldest_ts : Option Int
  last_sync_ts : Int
deriving DecidableEq, Repr

/-- The `unwrap_or(FolderSyncState { .. none .. })` default the
`AppendMessages` handler uses when no sync state row exists yet. -/
def default_sync_state (folder_id : Int) : FolderSyncState :=
  { folder_id := folder_id
    uidvalidity := none
    uidnext := none
    last_seen_uid := none
    last_sync_ts := none
    oldest_ts := none }

/-- The merge performed by the `StoreUpdate::AppendMessages` handler in
`ratmail-tui/src/main.rs` when a `sync_update` is present: `existing` is the
stored row (or the all-`none` default), and the handler writes back the
`merged` row built by the two four-way `match`es plus
`last_sync_ts: Some(update.last_sync_ts)`. -/
def merge_sync_state (folder_id : Int) (existing0 : Option FolderSyncState)
    (update : SyncUpdate) : FolderSyncState :=
  let existing := existing0.getD (default_sync_state folder_id)
  { folder_id := folder_id
    uidvalidity := existing.uidvalidity
    uidnext := existing.uidnext
    last_seen_uid :=
      match existing.last_seen_uid, update.last_seen_uid with
      | some a, some b => some (max a b)
      | some a, none => some a
      | none, some b => some b
      | none, none => none
    last_sync_ts := some update.last_sync_ts
    oldest_ts :=
      match existing.oldest_ts, update.oldest_ts with
      | some a, some b => some (min a b)
      | some a, none => some a
      | none, some b => some b
      | none, none => none }

/-- Embeds `build_sync_update` in `ratmail-tui/src/main.rs`: from a batch of message
summaries compute `last_seen_uid = max uids`, `oldest_ts = min parsed dates`,
`last_sync_ts = now`.  `dateparse` (the `mailparse` crate) and the clock are
parameters. -/
def build_sync_update (dateparse : String → Option Int) (now : Int)
    (uids : List (Option Int)) (dates : List String) : Option SyncUpdate :=
  if uids.isEmpty ∧ dates.isEmpty then none
  else
    let last_seen_uid := uids.foldl
      (fun acc u => match u with
        | some uid => some (acc.elim uid (fun prev => max prev uid))
        | none => acc) none
    let oldest_ts := dates.foldl
      (fun acc d => match dateparse d with
        | some ts => some (acc.elim ts (fun prev => min prev ts))
        | none => acc) none
    some { last_seen_uid := last_seen_uid, oldest_ts := oldest_ts,
           last_sync_ts := now }

/-! ### Character-level string helpers

The Rust code uses `str::trim`, `to_ascii_lowercase`, `strip_prefix`,
`contains` and friends on UTF-8 strings.  They are embedded here over
`List Char`; all patterns the repository searches for are ASCII, where the
byte view and the character view coincide. -/

/-- ASCII lowercasing of one character (`u8::to_ascii_lowercase`). -/
def ascii_lower_char (c : Char) : Char :=
  if 'A' ≤ c ∧ c ≤ 'Z' then Char.ofNat (c.toNat + 32) else c

/-- Embeds `str::to_ascii_lowercase` / `to_lowercase` on the ASCII inputs used. -/
def lower_chars (s : List Char) : List Char := s.map ascii_lower_char

/-- Embeds `str::trim`: drop leading and trailing whitespace. -/
def trim_chars (s : List Char) : List Char :=
  ((s.dropWhile Char.isWhitespace).reverse.dropWhile Char.isWhitespace).reverse

/-- Embeds `str::strip_prefix`. -/
def strip_pre (p s : List Char) : Option (List Char) :=
  if p.isPrefixOf s then some (s.drop p.length) else none

/-- Embeds `str::contains(needle)`: substring occurrence. -/
def contains_sub (hay needle : List Char) : Bool :=
  match hay with
  | [] => needle.isEmpty
  | _ :: t => needle.isPrefixOf hay || contains_sub t needle

/-- Embeds `canonical_folder_name` in `ratmail-tui/src/main.rs`: trim, strip a
Gmail namespace, then map the lowercased name onto the display-canonical
system folder names, or keep the trimmed name verbatim. -/
def canonical_folder_name (raw : String) : String :=
  let name0 := trim_chars raw.data
  let name :=
    match strip_pre "[Gmail]/".data name0 with
    | some stripped => stripped
    | none =>
      match strip_pre "[Google Mail]/".data name0 with
      | some stripped => stripped
      | none => name0
  let lowered := lower_chars (trim_chars name)
  let mapped :=
    if lowered = "sent mail".data ∨ lowered = "sent-mail".data then
      "Sent".data
    else if lowered = "all mail".data then "All Mail".data
    else if lowered = "inbox".data then "INBOX".data
    else if lowered = "drafts".data then "Drafts".data
    else if lowered = "archive".data then "Archive".data
    else if lowered = "spam".data then "Spam".data
    else if lowered = "trash".data then "Trash".data
    else if lowered = "starred".data then "Starred".data
    else trim_chars name
  String.mk mapped

/-! ### Demo seed fixture (`SqliteMailStore::seed_demo_if_empty`) -/

/-- Embeds `lower_label.contains("work")` in `seed_demo_if_empty`. -/
def demo_is_work (label : String) : Bool :=
  contains_sub (lower_chars (trim_chars label.data)) "work".data

/-- The demo account address chosen by `seed_demo_if_empty`. -/
def demo_expected_address (label : String) : String :=
  if demo_is_work label then "work@ratmail-demo.local"
  else "personal@ratmail-demo.local"

/-- The demo account name chosen by `seed_demo_if_empty`. -/
def demo_account_name (label : String) : String :=
  if (trim_chars label.data).isEmpty then "Ratmail Demo"
  else String.mk (trim_chars label.data)

/-- The `To:` header `"{name} <{address}>"` used by the demo messages. -/
def demo_to_header (label : String) : String :=
  demo_account_name label ++ " <" ++ demo_expected_address label ++ ">"

/-- One row of the `folders` insert in `seed_demo_if_empty`. -/
structure SeedFolder where
  id : Int
  name : String
  unread : Int
deriving DecidableEq, Repr

/-- The folder rows installed by `seed_demo_if_empty`, in insert (= id)
order. -/
def demo_folders : List SeedFolder :=
  [⟨1, "INBOX", 4⟩, ⟨2, "Sent", 0⟩, ⟨3, "Drafts", 1⟩, ⟨4, "Archive", 0⟩,
   ⟨5, "Promotions", 2⟩, ⟨6, "Orders", 1⟩]

/-- One row of the `messages` insert in `seed_demo_if_empty` (the tuple
`(id, folder_id, date, from, to, cc, subject, unread, preview)`). -/
structure SeedMessage where
  id : Int
  folder_id : Int
  date : String
  from_addr : String
  to_addr : String
  cc : String
  subject : String
  unread : Int
  preview : String
deriving DecidableEq, Repr

/-- The base (work-demo) message vector of `seed_demo_if_empty`. -/
def demo_messages_base (th : String) : List SeedMessage :=
  [⟨101, 6, "2026-02-14 09:42",
    "Northstar Outfitters <orders@northstar-outfitters.com>", th, "",
    "Your order NS-20419 has shipped", 1,
    "Track your shipment and view order details."⟩,
   ⟨102, 1, "2026-02-14 08:15", "Orbit Weekly <editor@orbitweekly.com>", th,
    "", "The Friday Brief: product launches, retail trends, and growth playbooks",
    1, "A polished newsletter with top stories and market signals."⟩,
   ⟨103, 1, "2026-02-13 17:28", "Acorn Payments <billing@acornpayments.com>",
    th, "finance@northstar-outfitters.com", "Invoice 8842 paid successfully",
    0, "Payment confirmed. Receipt and breakdown attached."⟩,
   ⟨104, 5, "2026-02-13 13:52",
    "Northstar Studio <hello@northstar-outfitters.com>", th, "",
    "48-hour Winter Edit: premium picks up to 30% off", 1,
    "Store campaign with product cards and image-rich layout."⟩,
   ⟨105, 1, "2026-02-12 16:10", "Ratmail Team <product@ratmail.dev>", th, "",
    "Ratmail 0.7 release notes and roadmap preview", 0,
    "Terminal rendering upgrades, compose improvements, and CLI policy updates."⟩,
   ⟨106, 1, "2026-02-12 10:04", "Security Desk <security@workspace.example>",
    th, "", "New login detected from San Diego, CA", 1,
    "Sign-in alert with security review link."⟩,
   ⟨107, 2, "2026-02-11 21:44", th, "Jordan Park <jordan@partnerstudio.io>",
    "", "Re: Q2 co-marketing timeline", 0,
    "Shared timeline and creative milestones for Q2 launch."⟩,
   ⟨108, 3, "2026-02-11 14:03", th, "marketing@northstar-outfitters.com", "",
    "Draft: Spring campaign concept", 0,
    "Drafting launch copy and hero section options."⟩]

/-- The message vector of `seed_demo_if_empty`: the work base vector, with
all eight entries overwritten for the personal demo (the
`if !is_work_demo { messages[i] = ... }` assignments). -/
def demo_messages (label : String) : List SeedMessage :=
  let th := demo_to_header label
  let base := demo_messages_base th
  if demo_is_work label then base
  else
    ((((((((base.set 0
      ⟨101, 1, "2026-02-14 18:22", "Maya Lin <maya.lin@friendsmail.com>", th,
       "", "Dinner on Friday?", 1,
       "Italian or sushi? I booked us for 7 if you're free."⟩).set 1
      ⟨102, 1, "2026-02-14 11:04",
       "SkyBridge Airlines <updates@skybridge-air.com>", th, "",
       "Trip confirmed: Austin, Mar 3", 1,
       "Gate details, baggage allowance, and check-in timeline."⟩).set 2
      ⟨103, 1, "2026-02-13 20:19", "River Bank <alerts@riverbank.com>", th,
       "", "Your February statement is ready", 0,
       "Statement available in secure inbox."⟩).set 3
      ⟨104, 5, "2026-02-13 08:40",
       "Neighborhood Makers <hello@makers-district.org>", th, "",
       "Weekend events near you", 1,
       "Food popups, gallery night, and live jazz picks."⟩).set 4
      ⟨105, 1, "2026-02-12 21:12", "Lena Park <lena.park@photoshare.app>",
       th, "", "Photos from Tahoe are up", 0,
       "Shared album with 64 new photos."⟩).set 5
      ⟨106, 1, "2026-02-12 09:18",
       "Google Account <no-reply@accounts.google.com>", th, "",
       "Password changed successfully", 0,
       "Security confirmation for your account."⟩).set 6
      ⟨107, 2, "2026-02-11 17:31", th,
       "Noah Rivera <noah.rivera@friendsmail.com>", "",
       "Re: Mom's birthday plan", 0,
       "I can pick up the cake and decorations Saturday morning."⟩).set 7
      ⟨108, 3, "2026-02-10 22:06", th, "travel@notes.local", "",
       "Draft: Packing list for Austin", 0,
       "Carry-on checklist and hotel confirmation notes."⟩)

/-- The folder order the spec's demo scenario quotes, before filtering. -/
def demo_spec_folder_order : List String :=
  ["All Mail", "INBOX", "Starred", "Sent", "Drafts", "Archive", "Spam",
   "Trash", "Promotions", "Orders"]

/-! ### SQL `ORDER BY` as insertion sort -/

/-- Insert into a sorted list (helper for `sort_by_key`). -/
def insert_sorted {α : Type} {β : Type} [LinearOrder β] (key : α → β)
    (a : α) : List α → List α
  | [] => [a]
  | b :: t => if key a ≤ key b then a :: b :: t else b :: insert_sorted key a t

/-- SQL `ORDER BY key ASC`, modelled as insertion sort (SQLite's tie order
is unspecified; any stable choice is a faithful model). -/
def sort_by_key {α : Type} {β : Type} [LinearOrder β] (key : α → β) :
    List α → List α
  | [] => []
  | a :: t => insert_sorted key a (sort_by_key key t)

/-! ### Tile cache (`cache_tiles` table) -/

/-- One row of the `cache_tiles` table.  `updated_at` stores SQLite
`datetime('now')` strings, which are ISO-formatted and therefore compare
chronologically; it is modelled as a numeric timestamp. -/
structure TileRow where
  rowid : Int
  message_id : Int
  width_px : Int
  tile_height_px : Int
  theme : String
  remote_policy : String
  tile_index : Int
  png_bytes : List Nat
  updated_at : Nat
deriving DecidableEq, Repr

/-- The `TileMeta` struct of `ratmail-core`. -/
structure TileMeta where
  tile_index : Int
  height_px : Int
  bytes : List Nat
deriving DecidableEq, Repr

/-- The `WHERE message_id = ? AND width_px = ? AND tile_height_px = ? AND
theme = ? AND remote_policy = ?` condition shared by `get_cache_tiles` and
`touch_cache_tiles`. -/
def tile_key_matches (message_id width_px tile_height_px : Int)
    (theme remote_policy : String) (r : TileRow) : Bool :=
  r.message_id == message_id && r.width_px == width_px &&
    r.tile_height_px == tile_height_px && r.theme == theme &&
    r.remote_policy == remote_policy

/-- Embeds `SqliteMailStore::touch_cache_tiles`: `UPDATE cache_tiles SET
updated_at = datetime('now') WHERE <key>`. -/
def touch_cache_tiles (now : Nat) (message_id width_px tile_height_px : Int)
    (theme remote_policy : String) (tiles : List TileRow) : List TileRow :=
  tiles.map (fun r =>
    if tile_key_matches message_id width_px tile_height_px theme
        remote_policy r
    then { r with updated_at := now } else r)

/-- Embeds `MailStore::get_cache_tiles` for `SqliteMailStore`: select the rows of
the exact key ordered by `tile_index`, and if any were found, touch their
`updated_at`.  Returns the selected metas and the table after the call. -/
def get_cache_tiles (now : Nat) (message_id width_px tile_height_px : Int)
    (theme remote_policy : String) (tiles : List TileRow) :
    List TileMeta × List TileRow :=
  let rows := sort_by_key TileRow.tile_index
    (tiles.filter (tile_key_matches message_id width_px tile_height_px theme
      remote_policy))
  let tiles' :=
    if rows.isEmpty then tiles
    else touch_cache_tiles now message_id width_px tile_height_px theme
      remote_policy tiles
  (rows.map (fun r => TileMeta.mk r.tile_index r.tile_height_px r.png_bytes),
    tiles')

/-- Embeds `SqliteMailStore::cache_tiles_total_bytes`:
`SELECT SUM(LENGTH(png_bytes)) FROM cache_tiles`. -/
def cache_tiles_total_bytes (tiles : List TileRow) : Int :=
  (tiles.map (fun r => (r.png_bytes.length : Int))).sum

/-- The subquery `SELECT rowid FROM cache_tiles ORDER BY updated_at ASC
LIMIT 50` of `prune_cache_tiles`. -/
def oldest_tile_rowids (tiles : List TileRow) : List Int :=
  ((sort_by_key TileRow.updated_at tiles).take 50).map TileRow.rowid

/-- One `DELETE FROM cache_tiles WHERE rowid IN (...)` pass of
`prune_cache_tiles`. -/
def prune_pass (tiles : List TileRow) : List TileRow :=
  tiles.filter (fun r => !((oldest_tile_rowids tiles).contains r.rowid))

/-- Embeds `SqliteMailStore::prune_cache_tiles`: return immediately when the total
is within budget; otherwise repeatedly delete the 50 oldest rows, stopping
when a pass deletes nothing (`rows_affected == 0`) or the recomputed total
drops to the budget. -/
def prune_cache_tiles (max_bytes : Int) (tiles : List TileRow) :
    List TileRow :=
  if cache_tiles_total_bytes tiles ≤ max_bytes then tiles
  else
    if _h : (prune_pass tiles).length = tiles.length then prune_pass tiles
    else prune_cache_tiles max_bytes (prune_pass tiles)
termination_by tiles.length
decreasing_by
  have hle : (prune_pass tiles).length ≤ tiles.length :=
    List.length_filter_le _ tiles
  omega

/-! ### Message store (`accounts` / `folders` / `messages` / body and cache
tables of `ratmail-core/src/lib.rs`)

`parse_date_ts` delegates to `mailparse::dateparse` (an external crate) and
is passed as a parameter `pd`; likewise the clock-derived date strings of
`save_draft`.  `updated_at` columns of the text/html caches are not read by
any modelled operation and are omitted from those rows. -/

/-- Row of the `accounts` table. -/
structure AccountRow where
  id : Int
  name : String
  address : String
deriving DecidableEq, Repr

/-- Row of the `folders` table. -/
structure FolderRow where
  id : Int
  account_id : Int
  name : String
  unread : Int
deriving DecidableEq, Repr

/-- Row of the `messages` table. -/
structure MessageRow where
  id : Int
  account_id : Int
  folder_id : Int
  imap_uid : Option Int
  date : String
  date_ts : Int
  from_addr : String
  to_addr : String
  cc : String
  subject : String
  unread : Bool
  preview : String
deriving DecidableEq, Repr

/-- Row of the `bodies` table (raw MIME bytes; the modelled writers only
store UTF-8 strings, so the bytes are kept as a string). -/
structure BodyRow where
  message_id : Int
  raw_bytes : String
deriving DecidableEq, Repr

/-- Row of the `cache_text` table. -/
structure CacheTextRow where
  message_id : Int
  width_cols : Int
  text : String
deriving DecidableEq, Repr

/-- Row of the `cache_html` table. -/
structure CacheHtmlRow where
  message_id : Int
  remote_policy : String
  prepared_html : String
deriving DecidableEq, Repr

/-- The SQLite database of one account file.  `next_folder_id` /
`next_message_id` model the rowid auto-increment used by
`last_insert_rowid()`. -/
structure Store where
  accounts : List AccountRow
  folders : List FolderRow
  messages : List MessageRow
  bodies : List BodyRow
  cache_text : List CacheTextRow
  cache_html : List CacheHtmlRow
  cache_tiles : List TileRow
  next_folder_id : Int
  next_message_id : Int
deriving DecidableEq, Repr

/-- The `MessageSummary` struct (field `from` is renamed `from_addr`; `from`
is a Lean keyword). -/
structure MessageSummary where
  id : Int
  folder_id : Int
  imap_uid : Option Int
  date : String
  from_addr : String
  subject : String
  unread : Bool
  preview : String
deriving DecidableEq, Repr

/-- Embeds `DEFAULT_TEXT_WIDTH` in `ratmail-core`. -/
def DEFAULT_TEXT_WIDTH : Int := 80

/-- Embeds `SELECT COUNT(*) FROM messages WHERE folder_id = ? AND unread = 1`. -/
def unread_count (msgs : List MessageRow) (folder_id : Int) : Int :=
  ((msgs.filter (fun m => m.folder_id == folder_id && m.unread)).length : Int)

/-- Embeds `SqliteMailStore::update_folder_unread_counts`: for each folder id,
recount that folder's unread messages and write the count onto the folder
row. -/
def update_folder_unread_counts (folder_ids : List Int) (s : Store) :
    Store :=
  folder_ids.foldl
    (fun st fid =>
      { st with folders := st.folders.map (fun f =>
          if f.id == fid then { f with unread := unread_count st.messages fid }
          else f) })
    s

/-- Embeds `SqliteMailStore::move_messages`: collect the distinct folders of the
moved rows plus the target, repoint the rows, then recount the affected
folders. -/
def move_messages (message_ids : List Int) (target_folder_id : Int)
    (s : Store) : Store :=
  if message_ids.isEmpty then s
  else
    let affected0 :=
      ((s.messages.filter (fun m => message_ids.contains m.id)).map
        (fun m => m.folder_id)).dedup
    let affected :=
      if target_folder_id ∈ affected0 then affected0
      else affected0 ++ [target_folder_id]
    let s1 := { s with messages := s.messages.map (fun m =>
        if message_ids.contains m.id then { m with folder_id := target_folder_id }
        else m) }
    update_folder_unread_counts affected s1

/-- Embeds `SqliteMailStore::delete_messages`: collect the distinct folders of the
deleted rows, purge body/cache rows and the message rows, then recount the
affected folders. -/
def delete_messages (message_ids : List Int) (s : Store) : Store :=
  if message_ids.isEmpty then s
  else
    let affected :=
      ((s.messages.filter (fun m => message_ids.contains m.id)).map
        (fun m => m.folder_id)).dedup
    let s1 := { s with
      bodies := s.bodies.filter (fun b => !(message_ids.contains b.message_id))
      cache_text :=
        s.cache_text.filter (fun c => !(message_ids.contains c.message_id))
      cache_html :=
        s.cache_html.filter (fun c => !(message_ids.contains c.message_id))
      cache_tiles :=
        s.cache_tiles.filter (fun t => !(message_ids.contains t.message_id))
      messages := s.messages.filter (fun m => !(message_ids.contains m.id)) }
    update_folder_unread_counts affected s1

/-- Embeds `SqliteMailStore::set_message_unread`: look up the owning folder, flip
the flag, then recount that folder (when the message exists). -/
def set_message_unread (message_id : Int) (unread : Bool) (s : Store) :
    Store :=
  let folder_id := (s.messages.find? (fun m => m.id == message_id)).map
    (fun m => m.folder_id)
  let s1 := { s with messages := s.messages.map (fun m =>
      if m.id == message_id then { m with unread := unread } else m) }
  match folder_id with
  | some fid => update_folder_unread_counts [fid] s1
  | none => s1

/-- Embeds `SqliteMailStore::folder_id_by_name`. -/
def folder_id_by_name (account_id : Int) (name : String) (s : Store) :
    Option Int :=
  (s.folders.find? (fun f => f.account_id == account_id && f.name == name)).map
    (fun f => f.id)

/-- Embeds `MailStore::upsert_cache_text`: insert or, on `(message_id, width_cols)`
conflict, update. -/
def upsert_cache_text (message_id width_cols : Int) (text : String)
    (s : Store) : Store :=
  if s.cache_text.any (fun r =>
      r.message_id == message_id && r.width_cols == width_cols) then
    { s with cache_text := s.cache_text.map (fun r =>
        if r.message_id == message_id && r.width_cols == width_cols then
          { r with text := text }
        else r) }
  else
    { s with cache_text :=
        s.cache_text ++ [⟨message_id, width_cols, text⟩] }

/-- Embeds `MailStore::upsert_raw_body`: insert or, on `message_id` conflict,
update. -/
def upsert_raw_body (message_id : Int) (raw : String) (s : Store) : Store :=
  if s.bodies.any (fun b => b.message_id == message_id) then
    { s with bodies := s.bodies.map (fun b =>
        if b.message_id == message_id then { b with raw_bytes := raw } else b) }
  else
    { s with bodies := s.bodies ++ [⟨message_id, raw⟩] }

/-- Rust `str::lines`: split at LF, strip one trailing CR per line, drop a
final empty segment. -/
def split_lines : List Char → List (List Char)
  | [] => [[]]
  | '\n' :: t => [] :: split_lines t
  | c :: t =>
    match split_lines t with
    | [] => [[c]]
    | h :: r => (c :: h) :: r

/-- Rust `str::lines` on a string. -/
def rust_lines (s : String) : List (List Char) :=
  let parts := split_lines s.data
  let parts := if parts.getLast? = some [] then parts.dropLast else parts
  parts.map (fun line => if line.getLast? = some '\r' then line.dropLast
    else line)

/-- Embeds `draft_preview` in `ratmail-core`: the first non-blank line, trimmed,
capped at 200 characters. -/
def draft_preview (body : String) : String :=
  let first := ((rust_lines body).find?
    (fun line => !(trim_chars line).isEmpty)).getD []
  String.mk ((trim_chars first).take 200)

/-- Embeds `draft_raw` in `ratmail-core`: the RFC-2822 headers plus the body as
`text/plain; charset=utf-8; 8bit`. -/
def draft_raw (from_addr to_addr cc bcc subject body date_rfc2822 : String) :
    String :=
  "From: " ++ from_addr ++ "\r\n"
  ++ (if (trim_chars to_addr.data).isEmpty then ""
      else "To: " ++ String.mk (trim_chars to_addr.data) ++ "\r\n")
  ++ (if (trim_chars cc.data).isEmpty then ""
      else "Cc: " ++ String.mk (trim_chars cc.data) ++ "\r\n")
  ++ (if (trim_chars bcc.data).isEmpty then ""
      else "Bcc: " ++ String.mk (trim_chars bcc.data) ++ "\r\n")
  ++ "Subject: " ++ subject ++ "\r\n"
  ++ "Date: " ++ date_rfc2822 ++ "\r\n"
  ++ "Content-Type: text/plain; charset=utf-8\r\n"
  ++ "Content-Transfer-Encoding: 8bit\r\n"
  ++ "\r\n" ++ body ++ "\r\n"

/-- Embeds `SqliteMailStore::save_draft`: ensure a `"Drafts"` folder, insert the
message row with null uid and unread = 0, then write the text cache at the
default width and the raw MIME envelope.  `now_date` is the
`%Y-%m-%d %H:%M` clock string and `now_rfc2822` the RFC-2822 clock string.
Returns the new message id and the store. -/
def save_draft (pd : String → Int) (now_date now_rfc2822 : String)
    (account_id : Int) (from_addr to_addr cc bcc subject body : String)
    (s : Store) : Int × Store :=
  let fs : Int × Store :=
    match folder_id_by_name account_id "Drafts" s with
    | some fid => (fid, s)
    | none =>
      (s.next_folder_id,
        { s with
          folders := s.folders ++ [⟨s.next_folder_id, account_id, "Drafts", 0⟩]
          next_folder_id := s.next_folder_id + 1 })
  let folder_id := fs.1
  let s1 := fs.2
  let preview := draft_preview body
  let mid := s1.next_message_id
  let s2 := { s1 with
    messages := s1.messages ++
      [⟨mid, account_id, folder_id, none, now_date, pd now_date, from_addr,
        to_addr, cc, subject, false, preview⟩]
    next_message_id := mid + 1 }
  let s3 := upsert_cache_text mid DEFAULT_TEXT_WIDTH body s2
  let s4 := upsert_raw_body mid
    (draft_raw from_addr to_addr cc bcc subject body now_rfc2822) s3
  (mid, s4)

/-- The shared upsert body of `replace_folder_messages` and
`upsert_folder_messages_append`: read the row id by `(folder_id, imap_uid)`
(`fetch_optional`; a null uid never matches), then `UPDATE` the found row's
summary columns or `INSERT` a fresh row. -/
def upsert_message_by_uid (pd : String → Int) (account_id folder_id : Int)
    (st : Store) (msg : MessageSummary) : Store :=
  let existing_id : Option Int :=
    match msg.imap_uid with
    | some uid_val =>
      (st.messages.find? (fun m =>
          m.folder_id == folder_id && m.imap_uid == some uid_val)).map
        (fun m => m.id)
    | none => none
  match existing_id with
  | some eid =>
    { st with messages := st.messages.map (fun m =>
        if m.id == eid then
          { m with
            date := msg.date
            date_ts := pd msg.date
            from_addr := msg.from_addr
            subject := msg.subject
            unread := msg.unread
            preview := msg.preview }
        else m) }
  | none =>
    { st with
      messages := st.messages ++
        [⟨st.next_message_id, account_id, folder_id, msg.imap_uid, msg.date,
          pd msg.date, msg.from_addr, "", "", msg.subject, msg.unread,
          msg.preview⟩]
      next_message_id := st.next_message_id + 1 }

/-- The delete stage of `replace_folder_messages`: rows of the folder whose
uid is null or absent from the incoming uid list are removed from the
message table together with their body and cache rows. -/
def replace_delete_stage (folder_id : Int) (incoming_uids : List Int)
    (s : Store) : Store :=
  let existing := (s.messages.filter (fun m => m.folder_id == folder_id)).map
    (fun m => (m.id, m.imap_uid))
  if existing.isEmpty then s
  else
    let to_delete := (existing.filter (fun p =>
      match p.2 with
      | some uid => !(incoming_uids.contains uid)
      | none => true)).map (fun p => p.1)
    if to_delete.isEmpty then s
    else
      { s with
        bodies := s.bodies.filter (fun b => !(to_delete.contains b.message_id))
        cache_text :=
          s.cache_text.filter (fun c => !(to_delete.contains c.message_id))
        cache_html :=
          s.cache_html.filter (fun c => !(to_delete.contains c.message_id))
        cache_tiles :=
          s.cache_tiles.filter (fun t => !(to_delete.contains t.message_id))
        messages := s.messages.filter (fun m => !(to_delete.contains m.id)) }

/-- Embeds `SqliteMailStore::replace_folder_messages`: delete the folder's rows
whose uid is null or missing from the incoming list (with their caches),
then upsert each incoming message by `(folder_id, imap_uid)`. -/
def replace_folder_messages (pd : String → Int) (account_id folder_id : Int)
    (msgs : List MessageSummary) (s : Store) : Store :=
  let incoming_uids := msgs.filterMap (fun m => m.imap_uid)
  let s1 := replace_delete_stage folder_id incoming_uids s
  msgs.foldl (upsert_message_by_uid pd account_id folder_id) s1

/-- Embeds `SqliteMailStore::upsert_folder_messages_append`: the same per-message
upsert loop, with no delete stage. -/
def upsert_folder_messages_append (pd : String → Int)
    (account_id folder_id : Int) (msgs : List MessageSummary) (s : Store) :
    Store :=
  msgs.foldl (upsert_message_by_uid pd account_id folder_id) s

/-- The `MessageDetail` rows assembled by `load_snapshot` (`links` and
`attachments` are always empty there and are omitted). -/
structure MessageDetail where
  id : Int
  subject : String
  from_addr : String
  to_addr : String
  cc : String
  date : String
  body : String
deriving DecidableEq, Repr

/-- The snapshot assembled by `MailStore::load_snapshot`.  Row order inside
`folders` and `messages` (the SQL `ORDER BY` clauses) is not modelled; no
checked property depends on it. -/
structure StoreSnapshot where
  account : AccountRow
  folders : List FolderRow
  messages : List MessageRow
  message_details : List (Int × MessageDetail)
deriving DecidableEq, Repr

/-- Embeds `MailStore::load_snapshot` for `SqliteMailStore`: the account row
(`fetch_one`; `none` when absent), the account's folders and messages, and
one `MessageDetail` per message whose text cache at `DEFAULT_TEXT_WIDTH`
exists (the `LEFT JOIN` row is decoded with a non-null `text`, so messages
without a cache row are skipped by the `if let Ok` filter). -/
def load_snapshot (account_id : Int) (s : Store) : Option StoreSnapshot :=
  match s.accounts.find? (fun a => a.id == account_id) with
  | none => none
  | some acct =>
    let msgs := s.messages.filter (fun m => m.account_id == account_id)
    some
      { account := acct
        folders := s.folders.filter (fun f => f.account_id == account_id)
        messages := msgs
        message_details := msgs.filterMap (fun m =>
          (s.cache_text.find? (fun c =>
              c.message_id == m.id && c.width_cols == DEFAULT_TEXT_WIDTH)).map
            (fun c =>
              (m.id, MessageDetail.mk m.id m.subject m.from_addr m.to_addr
                m.cc m.date c.text))) }

/-- The spec's unread-count invariant: every folder row's counter equals
the number of unread messages currently stored in that folder. -/
def unread_invariant (s : Store) : Prop :=
  ∀ f ∈ s.folders, f.unread = unread_count s.messages f.id

instance (s : Store) : Decidable (unread_invariant s) :=
  inferInstanceAs
    (Decidable (∀ f ∈ s.folders, f.unread = unread_count s.messages f.id))

/-- At most one message row per `(folder_id, non-null imap_uid)` pair: the
store's partial-unique-index invariant (two rows of one folder never share
a non-null uid). -/
def uid_unique (msgs : List MessageRow) : Prop :=
  msgs.Pairwise (fun m m' =>
    m.folder_id = m'.folder_id → m.imap_uid = none ∨ m.imap_uid ≠ m'.imap_uid)

instance (msgs : List MessageRow) : Decidable (uid_unique msgs) :=
  decidable_of_iff (msgs.Pairwise (fun (m m' : MessageRow) =>
    m.folder_id = m'.folder_id
      → m.imap_uid = none ∨ m.imap_uid ≠ m'.imap_uid)) Iff.rfl

/-- The id list `to_delete` computed by `replace_folder_messages`: ids of
the folder's rows whose uid is null or absent from the incoming uids. -/
def replace_del_ids (folder_id : Int) (incoming_uids : List Int)
    (s : Store) : List Int :=
  (((s.messages.filter (fun m => m.folder_id == folder_id)).map
      (fun m => (m.id, m.imap_uid))).filter (fun p =>
        match p.2 with
        | some uid => !(incoming_uids.contains uid)
        | none => true)).map (fun p => p.1)

/-! ### Content extraction (`ratmail-content/src/lib.rs`)

These functions scan UTF-8 strings by byte index in Rust; they are embedded
over `List Char`.  Every pattern searched for is ASCII, where byte indexing
and character indexing agree. -/

/-- Embeds `str::find(needle)`: index of the first occurrence. -/
def find_sub (hay needle : List Char) : Option Nat :=
  match hay with
  | [] => if needle.isEmpty then some 0 else none
  | _ :: t =>
    if needle.isPrefixOf hay then some 0
    else (find_sub t needle).map (· + 1)

/-- Embeds `u8::is_ascii_whitespace`. -/
def is_ascii_ws (c : Char) : Bool :=
  c == ' ' || c == '\t' || c == '\n' || c == '\x0d' || Char.ofNat 12 == c

/-- Embeds `str::trim_start`. -/
def trim_start_chars (s : List Char) : List Char :=
  s.dropWhile Char.isWhitespace

/-- Number of occurrences of a pattern (any starting position). -/
def count_sub (hay needle : List Char) : Nat :=
  match hay with
  | [] => 0
  | _ :: t => (if needle.isPrefixOf hay then 1 else 0) + count_sub t needle

/-- One `while let Some(pos) = out[idx..].find(prefix)` loop of
`block_remote_assets`, for one prefix: replace `prefix ++ url` (up to the
closing quote) by `src="ratmail-blocked://remote"` and resume the scan at
`start + 1`.  The loop is fueled: each replacement inserts text containing
no further occurrence of any scanned prefix (the sentinel has no second
`s`), so `out.length + 1` iterations always suffice. -/
def block_asset_loop (pre : List Char) (quote : Char) :
    Nat → List Char → Nat → Nat × List Char
  | 0, out, _ => (0, out)
  | fuel + 1, out, idx =>
    match find_sub (out.drop idx) pre with
    | none => (0, out)
    | some pos =>
      let start := idx + pos
      let url_start := start + pre.length
      match List.findIdx? (fun c => c == quote) (out.drop url_start) with
      | none => (0, out)
      | some endRel =>
        let endPos := url_start + endRel
        let out2 := out.take start
          ++ "src=\"ratmail-blocked://remote\"".data ++ out.drop endPos
        let r := block_asset_loop pre quote fuel out2 (start + 1)
        (r.1 + 1, r.2)

/-- The jump table of `block_remote_assets`, in source order. -/
def remote_prefixes : List (List Char) :=
  ["src=\"http://".data, "src=\"https://".data, "src='http://".data,
   "src='https://".data, "background=\"http://".data,
   "background=\"https://".data, "background='http://".data,
   "background='https://".data]

/-- One step of `block_remote_css_urls`, recursing on the input suffix (the
Rust loop advances `idx` over an immutable input while building `out`, so
the suffix formulation is exact).  Fueled: every recursion drops at least
`pos + 4` characters of the suffix. -/
def block_css_loop : Nat → List Char → List Char × Nat
  | 0, s => (s, 0)
  | fuel + 1, s =>
    match find_sub s "url(".data with
    | none => (s, 0)
    | some pos =>
      let j0 := pos + 4
      let j := j0 + ((s.drop j0).takeWhile is_ascii_ws).length
      let q? : Option Char :=
        match (s.drop j).head? with
        | some c => if c == '\'' || c == '"' then some c else none
        | none => none
      let url_start := if q?.isSome then j + 1 else j
      let endIdx? : Option Nat :=
        match q? with
        | some q =>
          (List.findIdx? (fun c => c == q) (s.drop url_start)).map
            (url_start + ·)
        | none =>
          (List.findIdx? (fun c => c == ')') (s.drop url_start)).map
            (url_start + ·)
      match endIdx? with
      | none => (s, 0)
      | some endIdx =>
        let url := trim_start_chars
          ((s.drop url_start).take (endIdx - url_start))
        let is_remote := "http://".data.isPrefixOf url
          || "https://".data.isPrefixOf url
        if q?.isSome then
          let e1 := endIdx + 1
          let e2 := e1 + ((s.drop e1).takeWhile is_ascii_ws).length
          if (s.drop e2).head? = some ')' then
            let end_paren := e2 + 1
            if is_remote then
              let r := block_css_loop fuel (s.drop end_paren)
              (s.take pos ++ "url(\"ratmail-blocked://remote\")".data ++ r.1,
                r.2 + 1)
            else
              let r := block_css_loop fuel (s.drop end_paren)
              (s.take end_paren ++ r.1, r.2)
          else
            let r := block_css_loop fuel (s.drop e2)
            (s.take e2 ++ r.1, r.2)
        else
          let end_paren := endIdx + 1
          if is_remote then
            let r := block_css_loop fuel (s.drop end_paren)
            (s.take pos ++ "url(\"ratmail-blocked://remote\")".data ++ r.1,
              r.2 + 1)
          else
            let r := block_css_loop fuel (s.drop end_paren)
            (s.take end_paren ++ r.1, r.2)

/-- Embeds `block_remote_css_urls` in `ratmail-content`. -/
def block_remote_css_urls (html : List Char) : List Char × Nat :=
  block_css_loop (html.length + 1) html

/-- Embeds `block_remote_assets` in `ratmail-content`: rewrite quote-delimited
`src=` / `background=` http(s) references to the sentinel, then the CSS
`url(...)` pass; the count is the total number of replacements. -/
def block_remote_assets (html : List Char) : List Char × Nat :=
  let ac := remote_prefixes.foldl
    (fun (acc : List Char × Nat) pre =>
      let quote := if pre.contains '"' then '"' else '\''
      let r := block_asset_loop pre quote (acc.1.length + 1) acc.1 0
      (r.2, acc.2 + r.1))
    (html, 0)
  let cc := block_remote_css_urls ac.1
  (cc.1, ac.2 + cc.2)

/-- Embeds `extract_attr_value` in `ratmail-content`: find `name=` in the
lowercased input, require a quoted value, and return it trimmed (empty
values yield `none`). -/
def extract_attr_value (input name : List Char) : Option (List Char) :=
  match find_sub (lower_chars input) (name ++ "=".data) with
  | none => none
  | some pos =>
    let i0 := pos + (name ++ "=".data).length
    match (input.drop i0).dropWhile is_ascii_ws with
    | [] => none
    | q :: rest1 =>
      if q ≠ '\'' ∧ q ≠ '"' then none
      else
        let value0 := rest1.takeWhile (fun c => c ≠ q)
        if value0.isEmpty then none
        else
          let value := trim_chars value0
          if value.isEmpty then none else some value

/-- Embeds `strip_html_tags` in `ratmail-content`. -/
def strip_html_tags (input : List Char) : List Char :=
  (input.foldl
    (fun (acc : List Char × Bool) ch =>
      match ch with
      | '<' => (acc.1, true)
      | '>' => (acc.1, false)
      | _ => if acc.2 then acc else (acc.1 ++ [ch], acc.2))
    ([], false)).1

/-- Rust `str::split_whitespace`. -/
def split_ws (s : List Char) : List (List Char) :=
  let r := s.foldl
    (fun (acc : List (List Char) × List Char) c =>
      if c.isWhitespace then
        (if acc.2.isEmpty then acc.1 else acc.1 ++ [acc.2], [])
      else (acc.1, acc.2 ++ [c]))
    ([], [])
  if r.2.isEmpty then r.1 else r.1 ++ [r.2]

/-- Embeds `normalize_link_text` in `ratmail-content`: strip tags, collapse all
whitespace runs to single spaces, `none` when nothing remains. -/
def normalize_link_text (text : List Char) : Option (List Char) :=
  let out := (split_ws (strip_html_tags text)).foldl
    (fun acc part => if acc.isEmpty then part else acc ++ ' ' :: part) []
  if out.isEmpty then none else some out

/-- Embeds `best_link_text` in `ratmail-content`: inner text first, then the tag's
`aria-label` / `title`, then `alt` / `title` found inside the content. -/
def best_link_text (tag inner : List Char) : List Char :=
  match normalize_link_text inner with
  | some text => text
  | none =>
    match (extract_attr_value tag "aria-label".data).orElse
        (fun _ => extract_attr_value tag "title".data) with
    | some text => text
    | none =>
      match (extract_attr_value inner "alt".data).orElse
          (fun _ => extract_attr_value inner "title".data) with
      | some text => text
      | none => []

/-- The anchor scan of `extract_href_links_with_text`, recursing on the
input suffix (the Rust loop only moves `idx` forward).  Fueled: every
recursion drops at least one character. -/
def extract_href_loop : Nat → List Char → List (List Char × List Char)
  | 0, _ => []
  | fuel + 1, s =>
    let lower := lower_chars s
    match find_sub lower "<a".data with
    | none => []
    | some pos =>
      match find_sub (lower.drop pos) ">".data with
      | none => []
      | some tagRel =>
        let tagEnd := pos + tagRel
        let tag := (lower.drop pos).take (tagRel + 1)
        match find_sub tag "href=".data with
        | none => extract_href_loop fuel (s.drop (tagEnd + 1))
        | some hp =>
          let hrefPos := pos + hp + 5
          let j := hrefPos + ((s.drop hrefPos).takeWhile is_ascii_ws).length
          let q? : Option Char :=
            match (s.drop j).head? with
            | some c => if c == '\'' || c == '"' then some c else none
            | none => none
          let url_start := if q?.isSome then j + 1 else j
          let urlEnd? : Option Nat :=
            match q? with
            | some q =>
              (List.findIdx? (fun c => c == q) (s.drop url_start)).map
                (url_start + ·)
            | none =>
              (List.findIdx? (fun c => c.isWhitespace || c == '>')
                (s.drop url_start)).map (url_start + ·)
          match urlEnd? with
          | none => extract_href_loop fuel (s.drop (tagEnd + 1))
          | some urlEnd =>
            let url := trim_chars
              ((s.drop url_start).take (urlEnd - url_start))
            let tagOriginal := (s.drop pos).take (tagRel + 1)
            match find_sub (lower.drop (tagEnd + 1)) "</a".data with
            | none => (url, []) :: extract_href_loop fuel (s.drop (tagEnd + 1))
            | some closeRel =>
              let closeTag := tagEnd + 1 + closeRel
              let inner := (s.drop (tagEnd + 1)).take closeRel
              let text := best_link_text tagOriginal inner
              (url, text) :: extract_href_loop fuel (s.drop (closeTag + 4))

/-- Embeds `extract_href_links_with_text` in `ratmail-content`. -/
def extract_href_links_with_text (html : List Char) :
    List (List Char × List Char) :=
  extract_href_loop (html.length + 1) html

/-- The `LinkInfo` struct over character lists. -/
structure LinkInfoC where
  url : List Char
  text : Option (List Char)
  from_html : Bool
deriving DecidableEq, Repr

/-- The `seen`-map update of `extract_links`: when an anchor url was
already recorded, fill in its text if it had none. -/
def update_first_text (out : List LinkInfoC) (url : List Char)
    (normalized : Option (List Char)) : List LinkInfoC :=
  match out with
  | [] => []
  | l :: rest =>
    if l.url = url then
      (if l.text = none ∧ normalized.isSome then { l with text := normalized }
       else l) :: rest
    else l :: update_first_text rest url normalized

/-- One anchor-pass step of `extract_links`. -/
def anchor_step (out : List LinkInfoC) (ut : List Char × List Char) :
    List LinkInfoC :=
  let normalized := normalize_link_text ut.2
  if out.any (fun l => l.url = ut.1) then update_first_text out ut.1 normalized
  else out ++ [⟨ut.1, normalized, true⟩]

/-- One text-pass step of `extract_links` (the `LinkFinder` pass). -/
def text_link_step (out : List LinkInfoC) (url : List Char) :
    List LinkInfoC :=
  if out.any (fun l => l.url = url) then out
  else out ++ [⟨url, none, false⟩]

/-- Embeds `extract_links` in `ratmail-content`: anchor-tag pass (entries carry
`from_html = true`, duplicates only fill missing text), then the plain-text
URL pass for urls not already seen.  The text-pass URL detector
(`linkify::LinkFinder`, an external crate) is the parameter `finder`. -/
def extract_links (finder : List Char → List (List Char)) (text : List Char)
    (html : Option (List Char)) : List LinkInfoC :=
  let out0 : List LinkInfoC :=
    match html with
    | some h => (extract_href_links_with_text h).foldl anchor_step []
    | none => []
  (finder text).foldl text_link_step out0

/-- C3: seeding the demo with label `"Personal"` on an empty store yields
address `personal@ratmail-demo.local`; the installed folder list, in order,
is exactly the spec's canonical order filtered to the folders the seed
creates (each name already display-canonical); the INBOX row's unread count
is 4; and exactly the eight message summaries 101..108 are installed, each
in one of the installed folders. -/
theorem demo_seed_personal :
    demo_expected_address "Personal" = "personal@ratmail-demo.local"
    ∧ demo_folders.map SeedFolder.name
        = ["INBOX", "Sent", "Drafts", "Archive", "Promotions", "Orders"]
    ∧ (demo_folders.map SeedFolder.name).Sublist demo_spec_folder_order
    ∧ demo_folders.map (fun f => canonical_folder_name f.name)
        = demo_folders.map SeedFolder.name
    ∧ (demo_folders.find? (fun f => f.name = "INBOX")).map SeedFolder.unread
        = some 4
    ∧ (demo_messages "Personal").map SeedMessage.id
        = [101, 102, 103, 104, 105, 106, 107, 108]
    ∧ ∀ m ∈ demo_messages "Personal",
        m.folder_id ∈ demo_folders.map SeedFolder.id := by
  decide

theorem insert_sorted_perm {α β : Type} [LinearOrder β] (key : α → β)
    (a : α) (l : List α) : List.Perm (insert_sorted key a l) (a :: l) := by
  induction l with
  | nil => simp [insert_sorted]
  | cons b t ih =>
      by_cases h : key a ≤ key b
      · simp [insert_sorted, h]
      · simp only [insert_sorted, if_neg h]
        exact (ih.cons b).trans (List.Perm.swap a b t)

theorem sort_by_key_perm {α β : Type} [LinearOrder β] (key : α → β)
    (l : List α) : List.Perm (sort_by_key key l) l := by
  induction l with
  | nil => simp [sort_by_key]
  | cons a t ih =>
      exact (insert_sorted_perm key a (sort_by_key key t)).trans (ih.cons a)

theorem insert_sorted_pairwise {α β : Type} [LinearOrder β] (key : α → β)
    (a : α) (l : List α) (h : l.Pairwise (fun x y => key x ≤ key y)) :
    (insert_sorted key a l).Pairwise (fun x y => key x ≤ key y) := by
  induction l with
  | nil => simp [insert_sorted]
  | cons b t ih =>
      rcases List.pairwise_cons.mp h with ⟨hb, ht⟩
      by_cases hab : key a ≤ key b
      · rw [insert_sorted, if_pos hab]
        refine List.pairwise_cons.mpr ⟨?_, h⟩
        intro x hx
        rcases List.mem_cons.mp hx with rfl | hx
        · exact hab
        · exact hab.trans (hb x hx)
      · rw [insert_sorted, if_neg hab]
        refine List.pairwise_cons.mpr ⟨?_, ih ht⟩
        intro x hx
        rcases List.mem_cons.mp ((insert_sorted_perm key a t).mem_iff.mp hx)
          with rfl | hx
        · exact le_of_not_le hab
        · exact hb x hx

theorem sort_by_key_pairwise {α β : Type} [LinearOrder β] (key : α → β)
    (l : List α) :
    (sort_by_key key l).Pairwise (fun x y => key x ≤ key y) := by
  induction l with
  | nil => simp [sort_by_key]
  | cons a t ih => exact insert_sorted_pairwise key a _ ih

/-- C4: merging a `sync_update` into a folder's sync state takes the maximum
of the stored and incoming `last_seen_uid`, the minimum of the stored and
incoming `oldest_ts` (a missing side leaving the present side unchanged,
which is precisely `Option.merge max` / `Option.merge min`), and overwrites
`last_sync_ts` with the incoming value; consequently the stored
`last_seen_uid` is monotonically non-decreasing and the stored `oldest_ts`
monotonically non-increasing across merges. -/
theorem sync_state_merge_monotone (folder_id : Int)
    (existing0 : Option FolderSyncState) (update : SyncUpdate) :
    (merge_sync_state folder_id existing0 update).last_seen_uid
        = Option.merge max
            (existing0.getD (default_sync_state folder_id)).last_seen_uid
            update.last_seen_uid
    ∧ (merge_sync_state folder_id existing0 update).oldest_ts
        = Option.merge min
            (existing0.getD (default_sync_state folder_id)).oldest_ts
            update.oldest_ts
    ∧ (merge_sync_state folder_id existing0 update).last_sync_ts
        = some update.last_sync_ts
    ∧ (∀ a : Int,
        (existing0.getD (default_sync_state folder_id)).last_seen_uid = some a
        → ∃ b, (merge_sync_state folder_id existing0 update).last_seen_uid
            = some b ∧ a ≤ b)
    ∧ (∀ a : Int,
        (existing0.getD (default_sync_state folder_id)).oldest_ts = some a
        → ∃ b, (merge_sync_state folder_id existing0 update).oldest_ts
            = some b ∧ b ≤ a) := by
  unfold merge_sync_state
  generalize existing0.getD (default_sync_state folder_id) = e
  obtain ⟨f, uv, un, lsu, lst, ots⟩ := e
  obtain ⟨ulsu, uots, ults⟩ := update
  refine ⟨?_, ?_, rfl, ?_, ?_⟩ <;>
    cases lsu <;> cases ots <;> cases ulsu <;> cases uots <;>
      simp [Option.merge, le_max_left, min_le_left]

/-- Witness for C4 at a concrete stored state and incoming update:
stored `last_seen_uid = 12`, incoming `14`, merged `14 ≥ 12`. -/
theorem sync_state_merge_monotone_witness :
    (merge_sync_state 7 (some ⟨7, none, none, some 12, some 100, some 50⟩)
        ⟨some 14, some 40, 200⟩).last_seen_uid = some 14
    ∧ ∃ b, (merge_sync_state 7
        (some ⟨7, none, none, some 12, some 100, some 50⟩)
        ⟨some 14, some 40, 200⟩).last_seen_uid = some b ∧ 12 ≤ b := by
  refine ⟨by decide, ?_⟩
  exact (sync_state_merge_monotone 7
    (some ⟨7, none, none, some 12, some 100, some 50⟩)
    ⟨some 14, some 40, 200⟩).2.2.2.1 12 rfl

theorem prune_pass_shorter (tiles : List TileRow) (hne : tiles ≠ []) :
    (prune_pass tiles).length < tiles.length := by
  have hperm := sort_by_key_perm TileRow.updated_at tiles
  obtain ⟨s0, srest, hs⟩ :
      ∃ s0 srest, sort_by_key TileRow.updated_at tiles = s0 :: srest := by
    cases hsort : sort_by_key TileRow.updated_at tiles with
    | nil => exact absurd ((hsort ▸ hperm).nil_eq).symm hne
    | cons s0 srest => exact ⟨s0, srest, rfl⟩
  have hmem : s0 ∈ tiles := hperm.mem_iff.mp (hs ▸ List.mem_cons_self s0 srest)
  have hrid : s0.rowid ∈ oldest_tile_rowids tiles := by
    unfold oldest_tile_rowids
    rw [hs, List.take_succ_cons]
    exact List.mem_map_of_mem TileRow.rowid (List.mem_cons_self _ _)
  have : ¬ (!((oldest_tile_rowids tiles).contains s0.rowid)) = true := by
    simp [List.contains, hrid]
  rw [prune_pass]
  exact List.length_filter_lt_length_iff_exists.mpr ⟨s0, hmem, this⟩

theorem prune_budget (max_bytes : Int) : ∀ n (tiles : List TileRow),
    tiles.length ≤ n →
    cache_tiles_total_bytes (prune_cache_tiles max_bytes tiles) ≤ max_bytes
    ∨ prune_cache_tiles max_bytes tiles = [] := by
  intro n
  induction n with
  | zero =>
      intro tiles hlen
      have : tiles = [] := List.length_eq_zero.mp (Nat.le_zero.mp hlen)
      subst this
      rw [prune_cache_tiles]
      by_cases hb : cache_tiles_total_bytes [] ≤ max_bytes
      · rw [if_pos hb]; exact Or.inr rfl
      · rw [if_neg hb]; exact Or.inr (by simp [prune_pass])
  | succ n ih =>
      intro tiles hlen
      rw [prune_cache_tiles]
      by_cases hb : cache_tiles_total_bytes tiles ≤ max_bytes
      · rw [if_pos hb]; exact Or.inl hb
      · rw [if_neg hb]
        by_cases hfix : (prune_pass tiles).length = tiles.length
        · rw [dif_pos hfix]
          rcases List.eq_nil_or_concat tiles with hnil | ⟨_, _, _⟩
          · subst hnil; exact Or.inr (by simp [prune_pass])
          · exact absurd hfix
              (Nat.ne_of_lt (prune_pass_shorter tiles (by simp_all)))
        · rw [dif_neg hfix]
          refine ih (prune_pass tiles) ?_
          have hle : (prune_pass tiles).length ≤ tiles.length :=
            List.length_filter_le _ tiles
          omega

/-- C5: `prune_cache_tiles(B)` terminates (it is a total function) with
either the remaining tile bytes within the budget or nothing left that the
final pass could delete (the cache emptied); a cache already within budget
is returned untouched; and every row a single pass removes is among the 50
oldest rows in `updated_at`-ascending order. -/
theorem prune_cache_tiles_spec (max_bytes : Int) (tiles : List TileRow)
    (hnd : (tiles.map TileRow.rowid).Nodup) :
    (cache_tiles_total_bytes (prune_cache_tiles max_bytes tiles) ≤ max_bytes
      ∨ prune_cache_tiles max_bytes tiles = [])
    ∧ (cache_tiles_total_bytes tiles ≤ max_bytes →
        prune_cache_tiles max_bytes tiles = tiles)
    ∧ (∀ r ∈ tiles, r ∉ prune_pass tiles →
        r ∈ (sort_by_key TileRow.updated_at tiles).take 50) := by
  refine ⟨prune_budget max_bytes tiles.length tiles le_rfl, ?_, ?_⟩
  · intro hb
    rw [prune_cache_tiles, if_pos hb]
  · intro r hr hnotin
    have hpred : ¬ ((!((oldest_tile_rowids tiles).contains r.rowid)) = true)
        := by
      intro hp
      exact hnotin (List.mem_filter.mpr ⟨hr, hp⟩)
    have hridmem : r.rowid ∈ oldest_tile_rowids tiles := by
      by_contra hc
      exact hpred (by simp [List.contains, hc])
    obtain ⟨r', hr'take, hr'id⟩ := List.mem_map.mp hridmem
    have hr'tiles : r' ∈ tiles :=
      (sort_by_key_perm TileRow.updated_at tiles).mem_iff.mp
        (List.mem_of_mem_take hr'take)
    have : r' = r :=
      List.inj_on_of_nodup_map hnd hr'tiles hr hr'id
    exact this ▸ hr'take

/-- Witness for C5: two rows (3 + 2 bytes), budget 4; one pass deletes
both rows, and the result is within budget. -/
theorem prune_cache_tiles_spec_witness :
    (cache_tiles_total_bytes (prune_cache_tiles 4
        [⟨1, 10, 800, 40, "th", "blocked", 0, [7, 7, 7], 1⟩,
         ⟨2, 10, 800, 40, "th", "blocked", 1, [7, 7], 2⟩]) ≤ 4
      ∨ prune_cache_tiles 4
        [⟨1, 10, 800, 40, "th", "blocked", 0, [7, 7, 7], 1⟩,
         ⟨2, 10, 800, 40, "th", "blocked", 1, [7, 7], 2⟩] = [])
    ∧ (cache_tiles_total_bytes
        [⟨1, 10, 800, 40, "th", "blocked", 0, [7, 7, 7], 1⟩,
         ⟨2, 10, 800, 40, "th", "blocked", 1, [7, 7], 2⟩] ≤ 4 →
        prune_cache_tiles 4
          [⟨1, 10, 800, 40, "th", "blocked", 0, [7, 7, 7], 1⟩,
           ⟨2, 10, 800, 40, "th", "blocked", 1, [7, 7], 2⟩]
          = [⟨1, 10, 800, 40, "th", "blocked", 0, [7, 7, 7], 1⟩,
             ⟨2, 10, 800, 40, "th", "blocked", 1, [7, 7], 2⟩])
    ∧ (∀ r ∈ [⟨1, 10, 800, 40, "th", "blocked", 0, [7, 7, 7], 1⟩,
              ⟨2, 10, 800, 40, "th", "blocked", 1, [7, 7], 2⟩],
        r ∉ prune_pass
          [⟨1, 10, 800, 40, "th", "blocked", 0, [7, 7, 7], 1⟩,
           ⟨2, 10, 800, 40, "th", "blocked", 1, [7, 7], 2⟩] →
        r ∈ (sort_by_key TileRow.updated_at
          [⟨1, 10, 800, 40, "th", "blocked", 0, [7, 7, 7], 1⟩,
           ⟨2, 10, 800, 40, "th", "blocked", 1, [7, 7], 2⟩]).take 50) :=
  prune_cache_tiles_spec 4
    [⟨1, 10, 800, 40, "th", "blocked", 0, [7, 7, 7], 1⟩,
     ⟨2, 10, 800, 40, "th", "blocked", 1, [7, 7], 2⟩] (by decide)

theorem update_folder_unread_counts_spec (fids : List Int) (s : Store) :
    (update_folder_unread_counts fids s).messages = s.messages
    ∧ (update_folder_unread_counts fids s).folders
        = s.folders.map (fun f =>
            if f.id ∈ fids then
              { f with unread := unread_count s.messages f.id }
            else f) := by
  induction fids generalizing s with
  | nil =>
      constructor
      · rfl
      · simp [update_folder_unread_counts]
  | cons fid rest ih =>
      have hstep : update_folder_unread_counts (fid :: rest) s
          = update_folder_unread_counts rest
              { s with folders := s.folders.map (fun f =>
                  if f.id == fid then
                    { f with unread := unread_count s.messages fid }
                  else f) } := rfl
      obtain ⟨ihm, ihf⟩ := ih { s with folders := s.folders.map (fun f =>
        if f.id == fid then { f with unread := unread_count s.messages fid }
        else f) }
      constructor
      · rw [hstep, ihm]
      · rw [hstep, ihf]
        simp only [List.map_map]
        apply List.map_congr_left
        intro f _
        by_cases h1 : f.id = fid
        · by_cases h2 : f.id ∈ rest <;>
            simp [Function.comp, h1, h2, unread_count]
        · by_cases h2 : f.id ∈ rest <;>
            simp [Function.comp, h1, h2, unread_count]

theorem unread_count_map (h : MessageRow → MessageRow) (l : List MessageRow)
    (fid : Int)
    (hcong : ∀ m ∈ l, ((h m).folder_id == fid && (h m).unread)
      = (m.folder_id == fid && m.unread)) :
    unread_count (l.map h) fid = unread_count l fid := by
  unfold unread_count
  rw [List.filter_map, List.length_map]
  congr 2
  exact List.filter_congr (fun m hm => hcong m hm)

theorem filter_filter_of_imp {α : Type} (p q : α → Bool) (l : List α)
    (himp : ∀ a ∈ l, p a = true → q a = true) :
    (l.filter q).filter p = l.filter p := by
  induction l with
  | nil => rfl
  | cons m t ih =>
      have ht := ih (fun x hx => himp x (List.mem_cons_of_mem _ hx))
      by_cases hq : q m = true
      · by_cases hp : p m = true <;>
          simp only [List.filter_cons, hq, hp, if_true, if_false, ht,
            Bool.false_eq_true, ite_true, ite_false]
      · have hp : p m = false := by
          cases hpc : p m with
          | false => rfl
          | true => exact absurd (himp m (List.mem_cons_self m t) hpc) hq
        simp only [List.filter_cons, hq, hp, if_false, ht,
          Bool.false_eq_true, ite_false]

theorem unread_count_filter (q : MessageRow → Bool) (l : List MessageRow)
    (fid : Int)
    (himp : ∀ m ∈ l, (m.folder_id == fid && m.unread) = true → q m = true) :
    unread_count (l.filter q) fid = unread_count l fid := by
  unfold unread_count
  rw [filter_filter_of_imp _ _ _ himp]

theorem update_counts_invariant (fids : List Int) (s : Store)
    (h : ∀ f ∈ s.folders, f.id ∉ fids →
      f.unread = unread_count s.messages f.id) :
    unread_invariant (update_folder_unread_counts fids s) := by
  obtain ⟨hm, hf⟩ := update_folder_unread_counts_spec fids s
  intro f hfmem
  rw [hf] at hfmem
  obtain ⟨f0, hf0, rfl⟩ := List.mem_map.mp hfmem
  rw [hm]
  by_cases hid : f0.id ∈ fids
  · simp [hid]
  · simp [hid, h f0 hf0 hid]

theorem move_messages_unread (ids : List Int) (target : Int) (s : Store)
    (hinv : unread_invariant s) :
    unread_invariant (move_messages ids target s) := by
  by_cases hemp : ids.isEmpty
  · simp only [move_messages, if_pos hemp]; exact hinv
  · simp only [move_messages, if_neg hemp]
    apply update_counts_invariant
    intro f hf hnot
    have hsplit : f.id ∉ ((s.messages.filter
          (fun m => ids.contains m.id)).map (fun m => m.folder_id)).dedup
        ∧ f.id ≠ target := by
      by_cases htm : target ∈ ((s.messages.filter
          (fun m => ids.contains m.id)).map (fun m => m.folder_id)).dedup
      · rw [if_pos htm] at hnot
        exact ⟨hnot, fun he => hnot (he ▸ htm)⟩
      · rw [if_neg htm] at hnot
        constructor
        · exact fun hc => hnot (List.mem_append_left _ hc)
        · exact fun he => hnot (List.mem_append_right _ (he ▸
            List.mem_singleton_self target))
    rw [unread_count_map _ _ _ ?_]
    · exact hinv f hf
    · intro m hm
      by_cases hmoved : ids.contains m.id = true
      · have hfolder : m.folder_id ∈ ((s.messages.filter
            (fun m => ids.contains m.id)).map (fun m => m.folder_id)).dedup :=
          List.mem_dedup.mpr (List.mem_map_of_mem _
            (List.mem_filter.mpr ⟨hm, hmoved⟩))
        have hmem : m.id ∈ ids := by simpa using hmoved
        have h1 : (target == f.id) = false := by
          simp only [beq_eq_false_iff_ne, ne_eq]
          exact fun he => hsplit.2 he.symm
        have h2 : (m.folder_id == f.id) = false := by
          simp only [beq_eq_false_iff_ne, ne_eq]
          exact fun he => hsplit.1 (he ▸ hfolder)
        simp [hmem, h1, h2]
      · have hmem : m.id ∉ ids := by simpa using hmoved
        simp [hmem]

theorem delete_messages_unread (ids : List Int) (s : Store)
    (hinv : unread_invariant s) :
    unread_invariant (delete_messages ids s) := by
  by_cases hemp : ids.isEmpty
  · simp only [delete_messages, if_pos hemp]; exact hinv
  · simp only [delete_messages, if_neg hemp]
    apply update_counts_invariant
    intro f hf hnot
    rw [unread_count_filter _ _ _ ?_]
    · exact hinv f hf
    · intro m hm hp
      by_cases hdel : ids.contains m.id = true
      · exfalso
        have hfolder : m.folder_id ∈ ((s.messages.filter
            (fun m => ids.contains m.id)).map (fun m => m.folder_id)).dedup :=
          List.mem_dedup.mpr (List.mem_map_of_mem _
            (List.mem_filter.mpr ⟨hm, hdel⟩))
        have heq : m.folder_id = f.id :=
          beq_iff_eq.mp ((Bool.and_eq_true _ _).mp hp).1
        exact hnot (heq ▸ hfolder)
      · simp only [Bool.not_eq_true] at hdel
        simpa using hdel

theorem set_message_unread_unread (mid : Int) (u : Bool) (s : Store)
    (hinv : unread_invariant s)
    (hids : (s.messages.map MessageRow.id).Nodup) :
    unread_invariant (set_message_unread mid u s) := by
  simp only [set_message_unread]
  cases hfind : s.messages.find? (fun m => m.id == mid) with
  | none =>
      intro f hf
      have hmap : s.messages.map (fun m =>
          if m.id == mid then { m with unread := u } else m) = s.messages := by
        have hnone := List.find?_eq_none.mp hfind
        calc s.messages.map (fun m =>
              if m.id == mid then { m with unread := u } else m)
            = s.messages.map (fun m => m) := by
              apply List.map_congr_left
              intro m hm
              rw [if_neg (by simpa using hnone m hm)]
          _ = s.messages := List.map_id' s.messages
      rw [hmap]
      exact hinv f hf
  | some m0 =>
      apply update_counts_invariant
      intro f hf hnot
      have hne : f.id ≠ m0.folder_id := by
        intro he
        exact hnot (by simpa using he)
      rw [unread_count_map _ _ _ ?_]
      · exact hinv f hf
      · intro m hm
        by_cases hmid : (m.id == mid) = true
        · have hm0mem : m0 ∈ s.messages := List.mem_of_find?_eq_some hfind
          have hm0id := List.find?_some hfind
          have hmeq : m = m0 := List.inj_on_of_nodup_map hids hm hm0mem
            ((beq_iff_eq.mp hmid).trans (beq_iff_eq.mp hm0id).symm)
          subst hmeq
          have hfalse : (m.folder_id == f.id) = false := by
            simp only [beq_eq_false_iff_ne, ne_eq]
            exact fun he => hne he.symm
          have hmid2 : m.id = mid := beq_iff_eq.mp hmid
          simp [hmid2, hfalse]
        · have hmid2 : m.id ≠ mid := by simpa using hmid
          simp [hmid2]

theorem upsert_cache_text_frame (mid w : Int) (t : String) (s : Store) :
    (upsert_cache_text mid w t s).folders = s.folders
    ∧ (upsert_cache_text mid w t s).messages = s.messages := by
  unfold upsert_cache_text
  split <;> exact ⟨rfl, rfl⟩

theorem upsert_raw_body_frame (mid : Int) (raw : String) (s : Store) :
    (upsert_raw_body mid raw s).folders = s.folders
    ∧ (upsert_raw_body mid raw s).messages = s.messages := by
  unfold upsert_raw_body
  split <;> exact ⟨rfl, rfl⟩

theorem unread_invariant_congr (s s' : Store) (hf : s'.folders = s.folders)
    (hm : s'.messages = s.messages) (h : unread_invariant s) :
    unread_invariant s' := by
  intro f hfm
  rw [hf] at hfm
  rw [hm]
  exact h f hfm

theorem upsert_cache_text_unread (mid w : Int) (t : String) (s : Store)
    (h : unread_invariant s) : unread_invariant (upsert_cache_text mid w t s) :=
  unread_invariant_congr s _ (upsert_cache_text_frame mid w t s).1
    (upsert_cache_text_frame mid w t s).2 h

theorem upsert_raw_body_unread (mid : Int) (raw : String) (s : Store)
    (h : unread_invariant s) : unread_invariant (upsert_raw_body mid raw s) :=
  unread_invariant_congr s _ (upsert_raw_body_frame mid raw s).1
    (upsert_raw_body_frame mid raw s).2 h

theorem save_draft_unread (pd : String → Int) (nd nr : String) (acct : Int)
    (fa ta cc0 bcc sub body : String) (s : Store)
    (hinv : unread_invariant s)
    (hmfresh : ∀ m ∈ s.messages, m.folder_id < s.next_folder_id) :
    unread_invariant
      (save_draft pd nd nr acct fa ta cc0 bcc sub body s).2 := by
  simp only [save_draft]
  cases hfold : folder_id_by_name acct "Drafts" s with
  | some fid =>
      apply upsert_raw_body_unread
      apply upsert_cache_text_unread
      intro f hf
      have hbase := hinv f hf
      simp [unread_count, List.filter_append, hbase]
  | none =>
      apply upsert_raw_body_unread
      apply upsert_cache_text_unread
      intro f hf
      rcases List.mem_append.mp hf with hf | hf
      · have hbase := hinv f hf
        simp [unread_count, List.filter_append, hbase]
      · have hfeq : f = ⟨s.next_folder_id, acct, "Drafts", 0⟩ :=
          List.mem_singleton.mp hf
        subst hfeq
        simp only [unread_count, List.filter_append]
        have hold : s.messages.filter
            (fun m => m.folder_id == s.next_folder_id && m.unread) = [] := by
          apply List.filter_eq_nil_iff.mpr
          intro m hm
          have := hmfresh m hm
          simp only [Bool.and_eq_true, beq_iff_eq, not_and]
          intro he
          omega
        simp [hold]

theorem upsert_cache_text_accounts (mid w : Int) (t : String) (s : Store) :
    (upsert_cache_text mid w t s).accounts = s.accounts := by
  unfold upsert_cache_text
  split <;> rfl

theorem upsert_raw_body_accounts (mid : Int) (raw : String) (s : Store) :
    (upsert_raw_body mid raw s).accounts = s.accounts := by
  unfold upsert_raw_body
  split <;> rfl

theorem upsert_raw_body_cache_text (mid : Int) (raw : String) (s : Store) :
    (upsert_raw_body mid raw s).cache_text = s.cache_text := by
  unfold upsert_raw_body
  split <;> rfl

theorem find?_append_of_none {α : Type} (p : α → Bool) (l1 l2 : List α)
    (h : l1.find? p = none) : (l1 ++ l2).find? p = l2.find? p := by
  induction l1 with
  | nil => rfl
  | cons a t ih =>
      cases hpa : p a with
      | true =>
          rw [List.find?_cons_of_pos _ hpa] at h
          exact absurd h (Option.some_ne_none a)
      | false =>
          rw [List.find?_cons_of_neg _ (by simp [hpa])] at h
          rw [List.cons_append, List.find?_cons_of_neg _ (by simp [hpa])]
          exact ih h

theorem upsert_cache_text_find_map (l : List CacheTextRow) (mid w : Int)
    (t : String)
    (hany : l.any (fun r => r.message_id == mid && r.width_cols == w)
      = true) :
    ((l.map (fun r =>
        if r.message_id == mid && r.width_cols == w then { r with text := t }
        else r)).find?
      (fun c => c.message_id == mid && c.width_cols == w)).map
        CacheTextRow.text = some t := by
  induction l with
  | nil => simp at hany
  | cons c rest ih =>
      by_cases hc : (c.message_id == mid && c.width_cols == w) = true
      · simp only [List.map_cons, if_pos hc]
        rw [List.find?_cons_of_pos _ (by simpa using hc)]
        rfl
      · simp only [List.map_cons, if_neg hc]
        rw [List.find?_cons_of_neg _ (by simpa using hc)]
        apply ih
        simpa [hc] using hany

theorem upsert_cache_text_find (mid w : Int) (t : String) (s : Store) :
    ((upsert_cache_text mid w t s).cache_text.find?
      (fun c => c.message_id == mid && c.width_cols == w)).map
        CacheTextRow.text = some t := by
  unfold upsert_cache_text
  by_cases hany : s.cache_text.any
      (fun r => r.message_id == mid && r.width_cols == w) = true
  · rw [if_pos hany]
    exact upsert_cache_text_find_map s.cache_text mid w t hany
  · rw [if_neg hany]
    have hnone : s.cache_text.find?
        (fun c => c.message_id == mid && c.width_cols == w) = none := by
      rw [List.find?_eq_none]
      intro c hc hpc
      exact hany (List.any_eq_true.mpr ⟨c, hc, hpc⟩)
    rw [find?_append_of_none _ _ _ hnone,
      List.find?_cons_of_pos _ (by simp)]
    rfl

/-- C8: `save_draft` followed by `load_snapshot` yields a snapshot holding
a `MessageDetail` for the new message id whose `body` is the body supplied
and whose `to`/`cc` are the recipients supplied; the message is stored in a
folder named `"Drafts"`, created when absent.  The only assumption is that
the account row exists (the snapshot's `fetch_one`). -/
theorem save_draft_round_trip (pd : String → Int) (nd nr : String)
    (acct : Int) (fa ta cc0 bcc sub body : String) (s : Store)
    (hacct : (s.accounts.find? (fun a => a.id == acct)).isSome = true) :
    ∃ snap, load_snapshot acct
        (save_draft pd nd nr acct fa ta cc0 bcc sub body s).2 = some snap
      ∧ (∃ d : MessageDetail,
          ((save_draft pd nd nr acct fa ta cc0 bcc sub body s).1, d)
            ∈ snap.message_details
          ∧ d.body = body ∧ d.to_addr = ta ∧ d.cc = cc0)
      ∧ (∃ f ∈ snap.folders, f.name = "Drafts"
          ∧ ∃ m ∈ snap.messages,
              m.id = (save_draft pd nd nr acct fa ta cc0 bcc sub body s).1
              ∧ m.folder_id = f.id) := by
  obtain ⟨acctRow, hacctRow⟩ := Option.isSome_iff_exists.mp hacct
  have hmid : (save_draft pd nd nr acct fa ta cc0 bcc sub body s).1
      = s.next_message_id := by
    simp only [save_draft]
    cases hfold : folder_id_by_name acct "Drafts" s <;> rfl
  obtain ⟨fid, s1, hs1f, hs1acc, hs1next, hdrafts⟩ :
      ∃ (fid : Int) (s1 : Store),
        (save_draft pd nd nr acct fa ta cc0 bcc sub body s).2
          = upsert_raw_body s.next_message_id
              (draft_raw fa ta cc0 bcc sub body nr)
              (upsert_cache_text s.next_message_id DEFAULT_TEXT_WIDTH body
                { s1 with
                  messages := s1.messages ++
                    [⟨s.next_message_id, acct, fid, none, nd, pd nd, fa, ta,
                      cc0, sub, false, draft_preview body⟩]
                  next_message_id := s.next_message_id + 1 })
        ∧ s1.accounts = s.accounts
        ∧ s1.next_message_id = s.next_message_id
        ∧ (∃ f ∈ s1.folders, f.account_id = acct ∧ f.name = "Drafts"
            ∧ f.id = fid) := by
    simp only [save_draft]
    cases hfold : folder_id_by_name acct "Drafts" s with
    | some fid0 =>
        refine ⟨fid0, s, rfl, rfl, rfl, ?_⟩
        rw [folder_id_by_name] at hfold
        cases hffind : s.folders.find? (fun f =>
            f.account_id == acct && f.name == "Drafts") with
        | none => rw [hffind] at hfold; exact absurd hfold (by simp)
        | some fd =>
            rw [hffind] at hfold
            have hfdmem : fd ∈ s.folders := List.mem_of_find?_eq_some hffind
            have hfdprop := List.find?_some hffind
            have hfid : fd.id = fid0 := by simpa using hfold
            refine ⟨fd, hfdmem, ?_, ?_, hfid⟩
            · exact beq_iff_eq.mp ((Bool.and_eq_true _ _).mp hfdprop).1
            · exact beq_iff_eq.mp ((Bool.and_eq_true _ _).mp hfdprop).2
    | none =>
        refine ⟨s.next_folder_id,
          { s with
            folders := s.folders ++
              [⟨s.next_folder_id, acct, "Drafts", 0⟩]
            next_folder_id := s.next_folder_id + 1 },
          rfl, rfl, rfl, ?_⟩
        exact ⟨⟨s.next_folder_id, acct, "Drafts", 0⟩,
          List.mem_append_right _ (List.mem_singleton_self _), rfl, rfl, rfl⟩
  set mrow : MessageRow :=
    ⟨s.next_message_id, acct, fid, none, nd, pd nd, fa, ta, cc0, sub, false,
      draft_preview body⟩ with hmrow
  set s2 : Store :=
    { s1 with
      messages := s1.messages ++ [mrow]
      next_message_id := s.next_message_id + 1 } with hs2
  set s4 : Store := upsert_raw_body s.next_message_id
    (draft_raw fa ta cc0 bcc sub body nr)
    (upsert_cache_text s.next_message_id DEFAULT_TEXT_WIDTH body s2) with hs4
  have hacc4 : s4.accounts = s.accounts := by
    rw [hs4, upsert_raw_body_accounts, upsert_cache_text_accounts]
    exact hs1acc
  have hmsg4 : s4.messages = s1.messages ++ [mrow] := by
    rw [hs4, (upsert_raw_body_frame _ _ _).2, (upsert_cache_text_frame _ _ _ _).2]
  have hfld4 : s4.folders = s1.folders := by
    rw [hs4, (upsert_raw_body_frame _ _ _).1, (upsert_cache_text_frame _ _ _ _).1]
  have hcache4 : (s4.cache_text.find? (fun c =>
      c.message_id == s.next_message_id
        && c.width_cols == DEFAULT_TEXT_WIDTH)).map CacheTextRow.text
      = some body := by
    rw [hs4, upsert_raw_body_cache_text]
    exact upsert_cache_text_find _ _ _ _
  rw [hs1f]
  rw [hmid]
  have hload : load_snapshot acct s4 = some
      { account := acctRow
        folders := s4.folders.filter (fun f => f.account_id == acct)
        messages := s4.messages.filter (fun m => m.account_id == acct)
        message_details :=
          (s4.messages.filter (fun m => m.account_id == acct)).filterMap
            (fun m => (s4.cache_text.find? (fun c =>
                c.message_id == m.id
                  && c.width_cols == DEFAULT_TEXT_WIDTH)).map
              (fun c =>
                (m.id, MessageDetail.mk m.id m.subject m.from_addr m.to_addr
                  m.cc m.date c.text))) } := by
    rw [load_snapshot, hacc4, hacctRow]
  refine ⟨_, hload, ?_, ?_⟩
  · obtain ⟨crow, hcrow, hctext⟩ :
        ∃ c, s4.cache_text.find? (fun c =>
            c.message_id == s.next_message_id
              && c.width_cols == DEFAULT_TEXT_WIDTH) = some c
          ∧ c.text = body := by
      cases hc : s4.cache_text.find? (fun c =>
          c.message_id == s.next_message_id
            && c.width_cols == DEFAULT_TEXT_WIDTH) with
      | none => rw [hc] at hcache4; exact absurd hcache4 (by simp)
      | some c =>
          rw [hc] at hcache4
          exact ⟨c, rfl, by simpa using hcache4⟩
    refine ⟨MessageDetail.mk s.next_message_id sub fa ta cc0 nd body, ?_,
      rfl, rfl, rfl⟩
    simp only []
    apply List.mem_filterMap.mpr
    refine ⟨mrow, ?_, ?_⟩
    · rw [hmsg4]
      exact List.mem_filter.mpr
        ⟨List.mem_append_right _ (List.mem_singleton_self _), by simp [hmrow]⟩
    · rw [show mrow.id = s.next_message_id from rfl, hcrow]
      simp [hmrow, hctext]
  · obtain ⟨fdr, hfdrmem, hfdracct, hfdrname, hfdrid⟩ := hdrafts
    refine ⟨fdr, ?_, hfdrname, mrow, ?_, rfl, ?_⟩
    · simp only []
      rw [hfld4]
      exact List.mem_filter.mpr ⟨hfdrmem, by simp [hfdracct]⟩
    · simp only []
      rw [hmsg4]
      exact List.mem_filter.mpr
        ⟨List.mem_append_right _ (List.mem_singleton_self _), by simp [hmrow]⟩
    · rw [hmrow]
      exact hfdrid.symm

/-- Witness for C8: draft saved into an empty one-account store. -/
theorem save_draft_round_trip_witness :
    ∃ snap, load_snapshot 1
        ((save_draft (fun _ => 0) "2026-02-14 12:00" "rfc" 1
          "Owner <o@e.com>" "t@e.com" "c@e.com" "b@e.com" "S" "Line"
          ⟨[⟨1, "P", "p@x"⟩], [], [], [], [], [], [], 1, 1⟩).2) = some snap
      ∧ (∃ d : MessageDetail,
          ((save_draft (fun _ => 0) "2026-02-14 12:00" "rfc" 1
            "Owner <o@e.com>" "t@e.com" "c@e.com" "b@e.com" "S" "Line"
            ⟨[⟨1, "P", "p@x"⟩], [], [], [], [], [], [], 1, 1⟩).1, d)
            ∈ snap.message_details
          ∧ d.body = "Line" ∧ d.to_addr = "t@e.com" ∧ d.cc = "c@e.com")
      ∧ (∃ f ∈ snap.folders, f.name = "Drafts"
          ∧ ∃ m ∈ snap.messages,
              m.id = (save_draft (fun _ => 0) "2026-02-14 12:00" "rfc" 1
                "Owner <o@e.com>" "t@e.com" "c@e.com" "b@e.com" "S" "Line"
                ⟨[⟨1, "P", "p@x"⟩], [], [], [], [], [], [], 1, 1⟩).1
              ∧ m.folder_id = f.id) :=
  save_draft_round_trip (fun _ => 0) "2026-02-14 12:00" "rfc" 1
    "Owner <o@e.com>" "t@e.com" "c@e.com" "b@e.com" "S" "Line"
    ⟨[⟨1, "P", "p@x"⟩], [], [], [], [], [], [], 1, 1⟩ (by decide)

theorem upsert_step_frame (pd : String → Int) (acc F : Int) (st : Store)
    (msg : MessageSummary) :
    (upsert_message_by_uid pd acc F st msg).bodies = st.bodies
    ∧ (upsert_message_by_uid pd acc F st msg).cache_text = st.cache_text
    ∧ (upsert_message_by_uid pd acc F st msg).cache_html = st.cache_html
    ∧ (upsert_message_by_uid pd acc F st msg).cache_tiles = st.cache_tiles := by
  cases hu : msg.imap_uid with
  | none =>
      unfold upsert_message_by_uid
      rw [hu]
      exact ⟨rfl, rfl, rfl, rfl⟩
  | some v =>
      cases hfind : st.messages.find? (fun m =>
          m.folder_id == F && m.imap_uid == some v) with
      | none =>
          unfold upsert_message_by_uid
          rw [hu]
          dsimp only
          rw [hfind]
          exact ⟨rfl, rfl, rfl, rfl⟩
      | some m0 =>
          unfold upsert_message_by_uid
          rw [hu]
          dsimp only
          rw [hfind]
          exact ⟨rfl, rfl, rfl, rfl⟩

theorem upsert_fold_frame (pd : String → Int) (acc F : Int)
    (msgs : List MessageSummary) : ∀ st : Store,
    (msgs.foldl (upsert_message_by_uid pd acc F) st).bodies = st.bodies
    ∧ (msgs.foldl (upsert_message_by_uid pd acc F) st).cache_text
        = st.cache_text
    ∧ (msgs.foldl (upsert_message_by_uid pd acc F) st).cache_html
        = st.cache_html
    ∧ (msgs.foldl (upsert_message_by_uid pd acc F) st).cache_tiles
        = st.cache_tiles := by
  induction msgs with
  | nil => exact fun st => ⟨rfl, rfl, rfl, rfl⟩
  | cons msg rest ih =>
      intro st
      obtain ⟨h1, h2, h3, h4⟩ := ih (upsert_message_by_uid pd acc F st msg)
      obtain ⟨g1, g2, g3, g4⟩ := upsert_step_frame pd acc F st msg
      exact ⟨h1.trans g1, h2.trans g2, h3.trans g3, h4.trans g4⟩

theorem upsert_step_shape (pd : String → Int) (acc F : Int) (st : Store)
    (msg : MessageSummary) :
    (∃ eid m0, m0 ∈ st.messages ∧ m0.folder_id = F
      ∧ msg.imap_uid ≠ none ∧ m0.imap_uid = msg.imap_uid ∧ m0.id = eid
      ∧ (upsert_message_by_uid pd acc F st msg).messages
          = st.messages.map (fun m =>
              if m.id == eid then
                { m with
                  date := msg.date
                  date_ts := pd msg.date
                  from_addr := msg.from_addr
                  subject := msg.subject
                  unread := msg.unread
                  preview := msg.preview }
              else m)
      ∧ (upsert_message_by_uid pd acc F st msg).next_message_id
          = st.next_message_id)
    ∨ ((∀ m ∈ st.messages,
          ¬(m.folder_id = F ∧ m.imap_uid = msg.imap_uid
            ∧ msg.imap_uid ≠ none))
      ∧ (upsert_message_by_uid pd acc F st msg).messages
          = st.messages ++
              [⟨st.next_message_id, acc, F, msg.imap_uid, msg.date,
                pd msg.date, msg.from_addr, "", "", msg.subject, msg.unread,
                msg.preview⟩]
      ∧ (upsert_message_by_uid pd acc F st msg).next_message_id
          = st.next_message_id + 1) := by
  cases hu : msg.imap_uid with
  | none =>
      refine Or.inr ⟨?_, ?_, ?_⟩
      · intro m _ hcon
        exact hcon.2.2 rfl
      · unfold upsert_message_by_uid
        rw [hu]
      · unfold upsert_message_by_uid
        rw [hu]
  | some v =>
      cases hfind : st.messages.find? (fun m =>
          m.folder_id == F && m.imap_uid == some v) with
      | none =>
          refine Or.inr ⟨?_, ?_, ?_⟩
          · intro m hm hcon
            have := List.find?_eq_none.mp hfind m hm
            exact this (by simp [hcon.1, hcon.2.1])
          · unfold upsert_message_by_uid
            rw [hu]
            dsimp only
            rw [hfind]
            rfl
          · unfold upsert_message_by_uid
            rw [hu]
            dsimp only
            rw [hfind]
            rfl
      | some m0 =>
          refine Or.inl ⟨m0.id, m0, List.mem_of_find?_eq_some hfind, ?_,
            by simp [hu], ?_, rfl, ?_, ?_⟩
          · have := List.find?_some hfind
            exact beq_iff_eq.mp ((Bool.and_eq_true _ _).mp this).1
          · have := List.find?_some hfind
            exact beq_iff_eq.mp ((Bool.and_eq_true _ _).mp this).2
          · unfold upsert_message_by_uid
            rw [hu]
            dsimp only
            rw [hfind]
            rfl
          · unfold upsert_message_by_uid
            rw [hu]
            dsimp only
            rw [hfind]
            rfl

theorem upsert_fold_ids (pd : String → Int) (acc F : Int)
    (msgs : List MessageSummary) : ∀ (st : Store) (mid : Int),
    (∀ m ∈ st.messages, m.id ≠ mid) → mid < st.next_message_id →
    ∀ m ∈ (msgs.foldl (upsert_message_by_uid pd acc F) st).messages,
      m.id ≠ mid := by
  induction msgs with
  | nil => exact fun st mid h1 _ m hm => h1 m hm
  | cons msg rest ih =>
      intro st mid h1 h2
      rcases upsert_step_shape pd acc F st msg with
        ⟨eid, m0, _, _, _, _, _, hmsgs, hnext⟩ | ⟨_, hmsgs, hnext⟩
      · refine ih (upsert_message_by_uid pd acc F st msg) mid ?_ ?_
        · intro m hm
          rw [hmsgs] at hm
          obtain ⟨m1, hm1, rfl⟩ := List.mem_map.mp hm
          by_cases he : (m1.id == eid) = true
          · rw [if_pos he]
            exact h1 m1 hm1
          · rw [if_neg he]
            exact h1 m1 hm1
        · rw [hnext]
          exact h2
      · refine ih (upsert_message_by_uid pd acc F st msg) mid ?_ ?_
        · intro m hm
          rw [hmsgs] at hm
          rcases List.mem_append.mp hm with hm | hm
          · exact h1 m hm
          · have hmeq := List.mem_singleton.mp hm
            subst hmeq
            intro hc
            have h3 : st.next_message_id = mid := hc
            omega
        · rw [hnext]
          omega

theorem upsert_fold_uids (pd : String → Int) (acc F : Int)
    (msgs : List MessageSummary) : ∀ (st : Store) (u : Int),
    ((∃ m ∈ (msgs.foldl (upsert_message_by_uid pd acc F) st).messages,
        m.folder_id = F ∧ m.imap_uid = some u)
      ↔ ((∃ m ∈ st.messages, m.folder_id = F ∧ m.imap_uid = some u)
        ∨ u ∈ msgs.filterMap (fun ms => ms.imap_uid))) := by
  induction msgs with
  | nil => intro st u; simp
  | cons msg rest ih =>
      intro st u
      have hih := ih (upsert_message_by_uid pd acc F st msg) u
      rcases upsert_step_shape pd acc F st msg with
        ⟨eid, m0, hm0mem, hm0F, hne, hm0uid, _, hmsgs, _⟩ |
        ⟨hnone, hmsgs, _⟩
      · obtain ⟨v, hv⟩ := Option.ne_none_iff_exists'.mp hne
        have hiff : (∃ m ∈ (upsert_message_by_uid pd acc F st msg).messages,
            m.folder_id = F ∧ m.imap_uid = some u)
            ↔ (∃ m ∈ st.messages, m.folder_id = F ∧ m.imap_uid = some u) := by
          rw [hmsgs]
          constructor
          · rintro ⟨m, hm, hP⟩
            obtain ⟨m1, hm1, rfl⟩ := List.mem_map.mp hm
            refine ⟨m1, hm1, ?_⟩
            by_cases he : (m1.id == eid) = true
            · rw [if_pos he] at hP
              exact hP
            · rw [if_neg he] at hP
              exact hP
          · rintro ⟨m1, hm1, hP⟩
            refine ⟨_, List.mem_map_of_mem _ hm1, ?_⟩
            by_cases he : (m1.id == eid) = true
            · rw [if_pos he]
              exact hP
            · rw [if_neg he]
              exact hP
        rw [List.foldl_cons, hih, hiff, List.filterMap_cons, hv]
        constructor
        · rintro (h | h)
          · exact Or.inl h
          · exact Or.inr (List.mem_cons_of_mem v h)
        · rintro (h | h)
          · exact Or.inl h
          · rcases List.mem_cons.mp h with rfl | h
            · exact Or.inl ⟨m0, hm0mem, hm0F, by rw [hm0uid, hv]⟩
            · exact Or.inr h
      · have hiff : (∃ m ∈ (upsert_message_by_uid pd acc F st msg).messages,
            m.folder_id = F ∧ m.imap_uid = some u)
            ↔ ((∃ m ∈ st.messages, m.folder_id = F ∧ m.imap_uid = some u)
              ∨ msg.imap_uid = some u) := by
          rw [hmsgs]
          constructor
          · rintro ⟨m, hm, hP⟩
            rcases List.mem_append.mp hm with hm | hm
            · exact Or.inl ⟨m, hm, hP⟩
            · have := List.mem_singleton.mp hm
              subst this
              exact Or.inr hP.2
          · rintro (⟨m, hm, hP⟩ | h)
            · exact ⟨m, List.mem_append_left _ hm, hP⟩
            · exact ⟨_, List.mem_append_right _ (List.mem_singleton_self _),
                rfl, h⟩
        rw [List.foldl_cons, hih, hiff, List.filterMap_cons]
        cases hv : msg.imap_uid with
        | none =>
            constructor
            · rintro ((h | h) | h)
              · exact Or.inl h
              · exact absurd h (by simp)
              · exact Or.inr h
            · rintro (h | h)
              · exact Or.inl (Or.inl h)
              · exact Or.inr h
        | some v =>
            constructor
            · rintro ((h | h) | h)
              · exact Or.inl h
              · have hvu : v = u := Option.some_inj.mp h
                subst hvu
                exact Or.inr (List.mem_cons_self v _)
              · exact Or.inr (List.mem_cons_of_mem v h)
            · rintro (h | h)
              · exact Or.inl (Or.inl h)
              · rcases List.mem_cons.mp h with rfl | h
                · exact Or.inl (Or.inr rfl)
                · exact Or.inr h

theorem upsert_fold_uid_unique (pd : String → Int) (acc F : Int)
    (msgs : List MessageSummary) : ∀ st : Store,
    uid_unique st.messages →
    uid_unique ((msgs.foldl (upsert_message_by_uid pd acc F) st).messages) := by
  induction msgs with
  | nil => exact fun st h => h
  | cons msg rest ih =>
      intro st h
      rw [List.foldl_cons]
      apply ih
      rcases upsert_step_shape pd acc F st msg with
        ⟨eid, m0, _, _, _, _, _, hmsgs, _⟩ | ⟨hnone, hmsgs, _⟩
      · rw [hmsgs, uid_unique, List.pairwise_map]
        have hproj : ∀ m : MessageRow,
            (if (m.id == eid) = true then
              { m with
                date := msg.date
                date_ts := pd msg.date
                from_addr := msg.from_addr
                subject := msg.subject
                unread := msg.unread
                preview := msg.preview } else m).folder_id = m.folder_id
            ∧ (if (m.id == eid) = true then
              { m with
                date := msg.date
                date_ts := pd msg.date
                from_addr := msg.from_addr
                subject := msg.subject
                unread := msg.unread
                preview := msg.preview } else m).imap_uid = m.imap_uid := by
          intro m
          by_cases hc : (m.id == eid) = true
          · constructor <;> rw [if_pos hc]
          · constructor <;> rw [if_neg hc]
        refine List.Pairwise.imp ?_ h
        intro a b hab hfolder
        rw [(hproj a).1, (hproj b).1] at hfolder
        rw [(hproj a).2, (hproj b).2]
        exact hab hfolder
      · rw [hmsgs, uid_unique, List.pairwise_append]
        refine ⟨h, List.pairwise_singleton _ _, ?_⟩
        intro a ha b hb
        have hbeq := List.mem_singleton.mp hb
        subst hbeq
        intro hfolder
        have hf' : a.folder_id = F := hfolder
        cases hau : a.imap_uid with
        | none => exact Or.inl rfl
        | some u =>
            right
            intro heq
            have hbu : a.imap_uid = msg.imap_uid := hau.trans heq
            exact hnone a ha ⟨hf', hbu, by rw [← hbu, hau]; simp⟩

theorem replace_delete_stage_fields (F : Int) (incoming : List Int)
    (s : Store) :
    (replace_delete_stage F incoming s).messages
        = s.messages.filter (fun m =>
            !((replace_del_ids F incoming s).contains m.id))
    ∧ (replace_delete_stage F incoming s).bodies
        = s.bodies.filter (fun b =>
            !((replace_del_ids F incoming s).contains b.message_id))
    ∧ (replace_delete_stage F incoming s).cache_text
        = s.cache_text.filter (fun c =>
            !((replace_del_ids F incoming s).contains c.message_id))
    ∧ (replace_delete_stage F incoming s).cache_html
        = s.cache_html.filter (fun c =>
            !((replace_del_ids F incoming s).contains c.message_id))
    ∧ (replace_delete_stage F incoming s).cache_tiles
        = s.cache_tiles.filter (fun t =>
            !((replace_del_ids F incoming s).contains t.message_id))
    ∧ (replace_delete_stage F incoming s).next_message_id
        = s.next_message_id := by
  unfold replace_delete_stage replace_del_ids
  by_cases h1 : ((s.messages.filter (fun m => m.folder_id == F)).map
      (fun m => (m.id, m.imap_uid))).isEmpty = true
  · rw [if_pos h1]
    have hE : (s.messages.filter (fun m => m.folder_id == F)).map
        (fun m => (m.id, m.imap_uid)) = [] := List.isEmpty_iff.mp h1
    rw [hE]
    simp
  · rw [if_neg h1]
    by_cases h2 : (((s.messages.filter (fun m => m.folder_id == F)).map
        (fun m => (m.id, m.imap_uid))).filter (fun p =>
          match p.2 with
          | some uid => !(incoming.contains uid)
          | none => true)).map (fun p => p.1) = []
    · rw [if_pos (by rw [List.isEmpty_iff]; exact h2)]
      rw [h2]
      simp
    · rw [if_neg (by rw [List.isEmpty_iff]; exact h2)]
      exact ⟨rfl, rfl, rfl, rfl, rfl, rfl⟩

theorem mem_replace_del_ids (F : Int) (incoming : List Int) (s : Store)
    (hids : (s.messages.map MessageRow.id).Nodup) (m : MessageRow)
    (hm : m ∈ s.messages) :
    (m.id ∈ replace_del_ids F incoming s)
      ↔ (m.folder_id = F
        ∧ (m.imap_uid = none
          ∨ ∃ u, m.imap_uid = some u ∧ u ∉ incoming)) := by
  unfold replace_del_ids
  constructor
  · intro hmem
    obtain ⟨p, hp, hpid⟩ := List.mem_map.mp hmem
    obtain ⟨hpmem, hpcond⟩ := List.mem_filter.mp hp
    obtain ⟨m2, hm2, hm2p⟩ := List.mem_map.mp hpmem
    obtain ⟨hm2mem, hm2F⟩ := List.mem_filter.mp hm2
    have hm2id : m2.id = m.id := by
      rw [← hm2p] at hpid
      exact hpid
    have hm2m : m2 = m := List.inj_on_of_nodup_map hids hm2mem hm hm2id
    subst hm2m
    refine ⟨beq_iff_eq.mp hm2F, ?_⟩
    rw [← hm2p] at hpcond
    cases hMu : m2.imap_uid with
    | none => exact Or.inl rfl
    | some u =>
        right
        refine ⟨u, rfl, ?_⟩
        rw [hMu] at hpcond
        simp only [Bool.not_eq_eq_eq_not, Bool.not_true] at hpcond
        simpa using hpcond
  · rintro ⟨hF, hcond⟩
    apply List.mem_map.mpr
    refine ⟨(m.id, m.imap_uid), ?_, rfl⟩
    apply List.mem_filter.mpr
    refine ⟨List.mem_map.mpr
      ⟨m, List.mem_filter.mpr ⟨hm, by simp [hF]⟩, rfl⟩, ?_⟩
    rcases hcond with h | ⟨u, hu, hnin⟩
    · rw [h]
    · rw [hu]
      simpa using hnin

/-- C1: after `replace_folder_messages(A, F, L)` the set of non-null uids
stored in folder `F` equals the set of non-null uids carried by `L`; every
previously stored row of `F` whose uid was null or absent from `L` is gone
from the message table and from the body, text-cache, html-cache and
tile-cache tables; and the per-message upsert (an explicit read of
`(folder_id, imap_uid)` followed by `UPDATE` or `INSERT`) preserves the
at-most-one-row-per-(folder, uid) invariant, so no duplicate is inserted.
Hypotheses: message ids are unique, the auto-increment counter is fresh,
and the invariant held before the call. -/
theorem replace_folder_messages_spec (pd : String → Int)
    (account_id folder_id : Int) (msgs : List MessageSummary) (s : Store)
    (hids : (s.messages.map MessageRow.id).Nodup)
    (hfresh : ∀ m ∈ s.messages, m.id < s.next_message_id)
    (huniq : uid_unique s.messages) :
    (∀ u : Int,
      (∃ m ∈ (replace_folder_messages pd account_id folder_id msgs
          s).messages, m.folder_id = folder_id ∧ m.imap_uid = some u)
      ↔ u ∈ msgs.filterMap (fun ms => ms.imap_uid))
    ∧ (∀ m ∈ s.messages, m.folder_id = folder_id →
        (m.imap_uid = none
          ∨ ∃ u, m.imap_uid = some u
              ∧ u ∉ msgs.filterMap (fun ms => ms.imap_uid)) →
        (∀ m' ∈ (replace_folder_messages pd account_id folder_id msgs
            s).messages, m'.id ≠ m.id)
        ∧ (∀ b ∈ (replace_folder_messages pd account_id folder_id msgs
            s).bodies, b.message_id ≠ m.id)
        ∧ (∀ c ∈ (replace_folder_messages pd account_id folder_id msgs
            s).cache_text, c.message_id ≠ m.id)
        ∧ (∀ c ∈ (replace_folder_messages pd account_id folder_id msgs
            s).cache_html, c.message_id ≠ m.id)
        ∧ (∀ t ∈ (replace_folder_messages pd account_id folder_id msgs
            s).cache_tiles, t.message_id ≠ m.id))
    ∧ uid_unique (replace_folder_messages pd account_id folder_id msgs
        s).messages := by
  have hrepl : replace_folder_messages pd account_id folder_id msgs s
      = msgs.foldl (upsert_message_by_uid pd account_id folder_id)
          (replace_delete_stage folder_id
            (msgs.filterMap (fun m => m.imap_uid)) s) := rfl
  obtain ⟨hdm, hdb, hdt, hdh, hdtl, hdn⟩ := replace_delete_stage_fields
    folder_id (msgs.filterMap (fun m => m.imap_uid)) s
  have hfm : msgs.filterMap (fun ms => ms.imap_uid)
      = msgs.filterMap (fun m => m.imap_uid) := rfl
  have hS1sub : ∀ u : Int,
      (∃ m ∈ (replace_delete_stage folder_id
          (msgs.filterMap (fun m => m.imap_uid)) s).messages,
        m.folder_id = folder_id ∧ m.imap_uid = some u) →
      u ∈ msgs.filterMap (fun m => m.imap_uid) := by
    rintro u ⟨m, hm, hF, huid⟩
    rw [hdm] at hm
    obtain ⟨hmem, hkeep⟩ := List.mem_filter.mp hm
    simp only [Bool.not_eq_eq_eq_not, Bool.not_true] at hkeep
    by_contra hnin
    have hdel : m.id ∈ replace_del_ids folder_id
        (msgs.filterMap (fun m => m.imap_uid)) s :=
      (mem_replace_del_ids folder_id _ s hids m hmem).mpr
        ⟨hF, Or.inr ⟨u, huid, hnin⟩⟩
    rw [show ((replace_del_ids folder_id
        (msgs.filterMap (fun m => m.imap_uid)) s).contains m.id) = true
      from by simpa using hdel] at hkeep
    exact absurd hkeep (by simp)
  refine ⟨?_, ?_, ?_⟩
  · intro u
    rw [hrepl, upsert_fold_uids pd account_id folder_id msgs _ u]
    constructor
    · rintro (h | h)
      · exact hS1sub u h
      · exact h
    · exact Or.inr
  · intro m hm hF hcond
    have hdel : m.id ∈ replace_del_ids folder_id
        (msgs.filterMap (fun m => m.imap_uid)) s :=
      (mem_replace_del_ids folder_id _ s hids m hm).mpr ⟨hF, hcond⟩
    have hgone : ∀ (i : Int),
        ((replace_del_ids folder_id
          (msgs.filterMap (fun m => m.imap_uid)) s).contains i → False) →
        i ≠ m.id := by
      intro i hi hc
      exact hi (by rw [hc]; simpa using hdel)
    refine ⟨?_, ?_, ?_, ?_, ?_⟩
    · rw [hrepl]
      refine upsert_fold_ids pd account_id folder_id msgs _ m.id ?_ ?_
      · intro m' hm'
        rw [hdm] at hm'
        obtain ⟨_, hkeep⟩ := List.mem_filter.mp hm'
        refine hgone m'.id ?_
        intro hcon
        rw [hcon] at hkeep
        exact absurd hkeep (by simp)
      · rw [hdn]
        exact hfresh m hm
    · rw [hrepl, (upsert_fold_frame pd account_id folder_id msgs _).1, hdb]
      intro b hb
      obtain ⟨_, hkeep⟩ := List.mem_filter.mp hb
      refine hgone b.message_id ?_
      intro hcon
      rw [hcon] at hkeep
      exact absurd hkeep (by simp)
    · rw [hrepl,
        (upsert_fold_frame pd account_id folder_id msgs _).2.1, hdt]
      intro c hc
      obtain ⟨_, hkeep⟩ := List.mem_filter.mp hc
      refine hgone c.message_id ?_
      intro hcon
      rw [hcon] at hkeep
      exact absurd hkeep (by simp)
    · rw [hrepl,
        (upsert_fold_frame pd account_id folder_id msgs _).2.2.1, hdh]
      intro c hc
      obtain ⟨_, hkeep⟩ := List.mem_filter.mp hc
      refine hgone c.message_id ?_
      intro hcon
      rw [hcon] at hkeep
      exact absurd hkeep (by simp)
    · rw [hrepl,
        (upsert_fold_frame pd account_id folder_id msgs _).2.2.2, hdtl]
      intro t ht
      obtain ⟨_, hkeep⟩ := List.mem_filter.mp ht
      refine hgone t.message_id ?_
      intro hcon
      rw [hcon] at hkeep
      exact absurd hkeep (by simp)
  · rw [hrepl]
    apply upsert_fold_uid_unique
    rw [hdm]
    exact List.Pairwise.sublist (List.filter_sublist _) huniq

/-- Witness for C1 at the spec's scenario 6: stored uids {10, 11, 12},
incoming uids {11, 12, 15}. -/
theorem replace_folder_messages_spec_witness :
    (∀ u : Int,
      (∃ m ∈ (replace_folder_messages (fun _ => 0) 1 1
          [⟨0, 0, some 11, "d4", "f4", "s4", false, "p4"⟩,
           ⟨0, 0, some 12, "d5", "f5", "s5", false, "p5"⟩,
           ⟨0, 0, some 15, "d6", "f6", "s6", false, "p6"⟩]
          ⟨[⟨1, "P", "p@x"⟩], [⟨1, 1, "INBOX", 0⟩],
            [⟨1, 1, 1, some 10, "d1", 0, "f1", "", "", "s1", false, "p1"⟩,
             ⟨2, 1, 1, some 11, "d2", 0, "f2", "", "", "s2", false, "p2"⟩,
             ⟨3, 1, 1, some 12, "d3", 0, "f3", "", "", "s3", false, "p3"⟩],
            [⟨1, "raw1"⟩], [⟨1, 80, "t1"⟩], [], [], 2, 4⟩).messages,
          m.folder_id = 1 ∧ m.imap_uid = some u)
      ↔ u ∈ ([⟨0, 0, some 11, "d4", "f4", "s4", false, "p4"⟩,
           ⟨0, 0, some 12, "d5", "f5", "s5", false, "p5"⟩,
           ⟨0, 0, some 15, "d6", "f6", "s6", false,
             "p6"⟩] : List MessageSummary).filterMap
          (fun ms => ms.imap_uid))
    ∧ (∀ m ∈ ([⟨1, 1, 1, some 10, "d1", 0, "f1", "", "", "s1", false, "p1"⟩,
             ⟨2, 1, 1, some 11, "d2", 0, "f2", "", "", "s2", false, "p2"⟩,
             ⟨3, 1, 1, some 12, "d3", 0, "f3", "", "", "s3", false,
               "p3"⟩] : List MessageRow), m.folder_id = 1 →
        (m.imap_uid = none
          ∨ ∃ u, m.imap_uid = some u
              ∧ u ∉ ([⟨0, 0, some 11, "d4", "f4", "s4", false, "p4"⟩,
           ⟨0, 0, some 12, "d5", "f5", "s5", false, "p5"⟩,
           ⟨0, 0, some 15, "d6", "f6", "s6", false,
             "p6"⟩] : List MessageSummary).filterMap
            (fun ms => ms.imap_uid)) →
        (∀ m' ∈ (replace_folder_messages (fun _ => 0) 1 1
          [⟨0, 0, some 11, "d4", "f4", "s4", false, "p4"⟩,
           ⟨0, 0, some 12, "d5", "f5", "s5", false, "p5"⟩,
           ⟨0, 0, some 15, "d6", "f6", "s6", false, "p6"⟩]
          ⟨[⟨1, "P", "p@x"⟩], [⟨1, 1, "INBOX", 0⟩],
            [⟨1, 1, 1, some 10, "d1", 0, "f1", "", "", "s1", false, "p1"⟩,
             ⟨2, 1, 1, some 11, "d2", 0, "f2", "", "", "s2", false, "p2"⟩,
             ⟨3, 1, 1, some 12, "d3", 0, "f3", "", "", "s3", false, "p3"⟩],
            [⟨1, "raw1"⟩], [⟨1, 80, "t1"⟩], [], [], 2, 4⟩).messages,
          m'.id ≠ m.id)
        ∧ (∀ b ∈ (replace_folder_messages (fun _ => 0) 1 1
          [⟨0, 0, some 11, "d4", "f4", "s4", false, "p4"⟩,
           ⟨0, 0, some 12, "d5", "f5", "s5", false, "p5"⟩,
           ⟨0, 0, some 15, "d6", "f6", "s6", false, "p6"⟩]
          ⟨[⟨1, "P", "p@x"⟩], [⟨1, 1, "INBOX", 0⟩],
            [⟨1, 1, 1, some 10, "d1", 0, "f1", "", "", "s1", false, "p1"⟩,
             ⟨2, 1, 1, some 11, "d2", 0, "f2", "", "", "s2", false, "p2"⟩,
             ⟨3, 1, 1, some 12, "d3", 0, "f3", "", "", "s3", false, "p3"⟩],
            [⟨1, "raw1"⟩], [⟨1, 80, "t1"⟩], [], [], 2, 4⟩).bodies,
          b.message_id ≠ m.id)
        ∧ (∀ c ∈ (replace_folder_messages (fun _ => 0) 1 1
          [⟨0, 0, some 11, "d4", "f4", "s4", false, "p4"⟩,
           ⟨0, 0, some 12, "d5", "f5", "s5", false, "p5"⟩,
           ⟨0, 0, some 15, "d6", "f6", "s6", false, "p6"⟩]
          ⟨[⟨1, "P", "p@x"⟩], [⟨1, 1, "INBOX", 0⟩],
            [⟨1, 1, 1, some 10, "d1", 0, "f1", "", "", "s1", false, "p1"⟩,
             ⟨2, 1, 1, some 11, "d2", 0, "f2", "", "", "s2", false, "p2"⟩,
             ⟨3, 1, 1, some 12, "d3", 0, "f3", "", "", "s3", false, "p3"⟩],
            [⟨1, "raw1"⟩], [⟨1, 80, "t1"⟩], [], [], 2, 4⟩).cache_text,
          c.message_id ≠ m.id)
        ∧ (∀ c ∈ (replace_folder_messages (fun _ => 0) 1 1
          [⟨0, 0, some 11, "d4", "f4", "s4", false, "p4"⟩,
           ⟨0, 0, some 12, "d5", "f5", "s5", false, "p5"⟩,
           ⟨0, 0, some 15, "d6", "f6", "s6", false, "p6"⟩]
          ⟨[⟨1, "P", "p@x"⟩], [⟨1, 1, "INBOX", 0⟩],
            [⟨1, 1, 1, some 10, "d1", 0, "f1", "", "", "s1", false, "p1"⟩,
             ⟨2, 1, 1, some 11, "d2", 0, "f2", "", "", "s2", false, "p2"⟩,
             ⟨3, 1, 1, some 12, "d3", 0, "f3", "", "", "s3", false, "p3"⟩],
            [⟨1, "raw1"⟩], [⟨1, 80, "t1"⟩], [], [], 2, 4⟩).cache_html,
          c.message_id ≠ m.id)
        ∧ (∀ t ∈ (replace_folder_messages (fun _ => 0) 1 1
          [⟨0, 0, some 11, "d4", "f4", "s4", false, "p4"⟩,
           ⟨0, 0, some 12, "d5", "f5", "s5", false, "p5"⟩,
           ⟨0, 0, some 15, "d6", "f6", "s6", false, "p6"⟩]
          ⟨[⟨1, "P", "p@x"⟩], [⟨1, 1, "INBOX", 0⟩],
            [⟨1, 1, 1, some 10, "d1", 0, "f1", "", "", "s1", false, "p1"⟩,
             ⟨2, 1, 1, some 11, "d2", 0, "f2", "", "", "s2", false, "p2"⟩,
             ⟨3, 1, 1, some 12, "d3", 0, "f3", "", "", "s3", false, "p3"⟩],
            [⟨1, "raw1"⟩], [⟨1, 80, "t1"⟩], [], [], 2, 4⟩).cache_tiles,
          t.message_id ≠ m.id))
    ∧ uid_unique (replace_folder_messages (fun _ => 0) 1 1
          [⟨0, 0, some 11, "d4", "f4", "s4", false, "p4"⟩,
           ⟨0, 0, some 12, "d5", "f5", "s5", false, "p5"⟩,
           ⟨0, 0, some 15, "d6", "f6", "s6", false, "p6"⟩]
          ⟨[⟨1, "P", "p@x"⟩], [⟨1, 1, "INBOX", 0⟩],
            [⟨1, 1, 1, some 10, "d1", 0, "f1", "", "", "s1", false, "p1"⟩,
             ⟨2, 1, 1, some 11, "d2", 0, "f2", "", "", "s2", false, "p2"⟩,
             ⟨3, 1, 1, some 12, "d3", 0, "f3", "", "", "s3", false, "p3"⟩],
            [⟨1, "raw1"⟩], [⟨1, 80, "t1"⟩], [], [], 2, 4⟩).messages :=
  replace_folder_messages_spec (fun _ => 0) 1 1
    [⟨0, 0, some 11, "d4", "f4", "s4", false, "p4"⟩,
     ⟨0, 0, some 12, "d5", "f5", "s5", false, "p5"⟩,
     ⟨0, 0, some 15, "d6", "f6", "s6", false, "p6"⟩]
    ⟨[⟨1, "P", "p@x"⟩], [⟨1, 1, "INBOX", 0⟩],
      [⟨1, 1, 1, some 10, "d1", 0, "f1", "", "", "s1", false, "p1"⟩,
       ⟨2, 1, 1, some 11, "d2", 0, "f2", "", "", "s2", false, "p2"⟩,
       ⟨3, 1, 1, some 12, "d3", 0, "f3", "", "", "s3", false, "p3"⟩],
      [⟨1, "raw1"⟩], [⟨1, 80, "t1"⟩], [], [], 2, 4⟩
    (by decide) (by decide) (by decide)

/-- C2 counterexample: starting from a store in which every folder counter
equals its folder's unread-message count, `upsert_folder_messages_append`
of one unread message leaves the folder counter untouched, so the claimed
invariant fails after that operation. -/
theorem append_unread_counterexample :
    unread_invariant
      ⟨[⟨1, "Personal", "p@x"⟩], [⟨1, 1, "INBOX", 0⟩], [], [], [], [], [],
        2, 1⟩
    ∧ ¬ unread_invariant
      (upsert_folder_messages_append (fun _ => 0) 1 1
        [⟨0, 0, some 5, "2026-01-01", "a@b", "Hi", true, "pv"⟩]
        ⟨[⟨1, "Personal", "p@x"⟩], [⟨1, 1, "INBOX", 0⟩], [], [], [], [], [],
          2, 1⟩) := by
  constructor
  · decide
  · decide

/-- C2 (amended): `move_messages`, `delete_messages`, `set_message_unread`
and `save_draft` each preserve the equality between every folder row's
unread counter and the number of unread messages in that folder;
`upsert_folder_messages_append` does not update folder counters and can
violate the equality. -/
theorem unread_counts_maintained (pd : String → Int) (nd nr : String)
    (ids : List Int) (target mid acct : Int) (u : Bool)
    (fa ta cc0 bcc sub body : String) (s : Store)
    (hinv : unread_invariant s)
    (hids : (s.messages.map MessageRow.id).Nodup)
    (hmfresh : ∀ m ∈ s.messages, m.folder_id < s.next_folder_id) :
    unread_invariant (move_messages ids target s)
    ∧ unread_invariant (delete_messages ids s)
    ∧ unread_invariant (set_message_unread mid u s)
    ∧ unread_invariant (save_draft pd nd nr acct fa ta cc0 bcc sub body s).2 :=
  ⟨move_messages_unread ids target s hinv,
   delete_messages_unread ids s hinv,
   set_message_unread_unread mid u s hinv hids,
   save_draft_unread pd nd nr acct fa ta cc0 bcc sub body s hinv hmfresh⟩

/-- Witness for the amended C2 at a concrete one-message store. -/
theorem unread_counts_maintained_witness :
    unread_invariant (move_messages [10] 1
      ⟨[⟨1, "P", "p@x"⟩], [⟨1, 1, "INBOX", 1⟩],
        [⟨10, 1, 1, some 3, "d", 0, "f", "t", "c", "s", true, "pv"⟩],
        [], [], [], [], 2, 11⟩)
    ∧ unread_invariant (delete_messages [10]
      ⟨[⟨1, "P", "p@x"⟩], [⟨1, 1, "INBOX", 1⟩],
        [⟨10, 1, 1, some 3, "d", 0, "f", "t", "c", "s", true, "pv"⟩],
        [], [], [], [], 2, 11⟩)
    ∧ unread_invariant (set_message_unread 10 false
      ⟨[⟨1, "P", "p@x"⟩], [⟨1, 1, "INBOX", 1⟩],
        [⟨10, 1, 1, some 3, "d", 0, "f", "t", "c", "s", true, "pv"⟩],
        [], [], [], [], 2, 11⟩)
    ∧ unread_invariant ((save_draft (fun _ => 0) "d2" "r2" 1 "f2" "t2" "c2"
        "b2" "s2" "B2"
      ⟨[⟨1, "P", "p@x"⟩], [⟨1, 1, "INBOX", 1⟩],
        [⟨10, 1, 1, some 3, "d", 0, "f", "t", "c", "s", true, "pv"⟩],
        [], [], [], [], 2, 11⟩).2) :=
  unread_counts_maintained (fun _ => 0) "d2" "r2" [10] 1 10 1 false "f2" "t2"
    "c2" "b2" "s2" "B2"
    ⟨[⟨1, "P", "p@x"⟩], [⟨1, 1, "INBOX", 1⟩],
      [⟨10, 1, 1, some 3, "d", 0, "f", "t", "c", "s", true, "pv"⟩],
      [], [], [], [], 2, 11⟩
    (by decide) (by decide) (by decide)

/-- C10: the tiles returned by `get_cache_tiles` are the rows matching the
exact cache key, in ascending `tile_index` order (top-to-bottom display
order), so no consumer needs to re-sort them. -/
theorem get_cache_tiles_sorted (now : Nat)
    (message_id width_px tile_height_px : Int) (theme remote_policy : String)
    (tiles : List TileRow) :
    ((get_cache_tiles now message_id width_px tile_height_px theme
        remote_policy tiles).1).Pairwise
      (fun a b => a.tile_index ≤ b.tile_index)
    ∧ List.Perm
      (get_cache_tiles now message_id width_px tile_height_px theme
        remote_policy tiles).1
      ((tiles.filter (tile_key_matches message_id width_px tile_height_px
          theme remote_policy)).map
        (fun r => TileMeta.mk r.tile_index r.tile_height_px r.png_bytes)) := by
  constructor
  · exact List.Pairwise.map _ (fun a b h => h)
      (sort_by_key_pairwise TileRow.tile_index _)
  · exact (sort_by_key_perm TileRow.tile_index _).map _

/-- C6: a `get_cache_tiles` call that returns a non-empty list sets
`updated_at` to the call time on every row matching the exact key and keeps
every other row unchanged; a call that returns an empty list leaves the
whole table unchanged. -/
theorem get_cache_tiles_touch (now : Nat)
    (message_id width_px tile_height_px : Int) (theme remote_policy : String)
    (tiles : List TileRow) :
    ((get_cache_tiles now message_id width_px tile_height_px theme
        remote_policy tiles).1 = [] →
      (get_cache_tiles now message_id width_px tile_height_px theme
        remote_policy tiles).2 = tiles)
    ∧ ((get_cache_tiles now message_id width_px tile_height_px theme
        remote_policy tiles).1 ≠ [] →
      (∀ r ∈ (get_cache_tiles now message_id width_px tile_height_px theme
          remote_policy tiles).2,
        tile_key_matches message_id width_px tile_height_px theme
          remote_policy r = true → r.updated_at = now)
      ∧ (∀ r ∈ tiles,
          tile_key_matches message_id width_px tile_height_px theme
            remote_policy r = false →
          r ∈ (get_cache_tiles now message_id width_px tile_height_px theme
            remote_policy tiles).2)) := by
  constructor
  · intro hempty
    have hrows : (sort_by_key TileRow.tile_index
        (tiles.filter (tile_key_matches message_id width_px tile_height_px
          theme remote_policy))).isEmpty = true := by
      have := List.map_eq_nil_iff.mp hempty
      simp [List.isEmpty_iff, this]
    simp only [get_cache_tiles]
    rw [if_pos hrows]
  · intro hne
    have hrows : ¬ (sort_by_key TileRow.tile_index
        (tiles.filter (tile_key_matches message_id width_px tile_height_px
          theme remote_policy))).isEmpty = true := by
      intro hemp
      exact hne (by simp [get_cache_tiles, List.isEmpty_iff.mp hemp])
    have hstate : (get_cache_tiles now message_id width_px tile_height_px
        theme remote_policy tiles).2
        = touch_cache_tiles now message_id width_px tile_height_px theme
            remote_policy tiles := by
      simp only [get_cache_tiles]
      rw [if_neg hrows]
    constructor
    · intro r hr hmatch
      rw [hstate] at hr
      obtain ⟨r0, _, hmap⟩ := List.mem_map.mp hr
      by_cases h0 : tile_key_matches message_id width_px tile_height_px theme
          remote_policy r0 = true
      · rw [if_pos h0] at hmap
        exact hmap ▸ rfl
      · rw [if_neg h0] at hmap
        exact absurd (hmap ▸ hmatch) h0
    · intro r hr hmatch
      rw [hstate]
      refine List.mem_map.mpr ⟨r, hr, ?_⟩
      rw [if_neg (by simp [hmatch])]

/-- Witness for C6: a one-row cache hit whose `updated_at` is bumped to the
call time 9. -/
theorem get_cache_tiles_touch_witness :
    (get_cache_tiles 9 5 800 40 "th" "blocked"
        [⟨1, 5, 800, 40, "th", "blocked", 0, [1, 2], 3⟩]).1 ≠ []
    ∧ ((∀ r ∈ (get_cache_tiles 9 5 800 40 "th" "blocked"
          [⟨1, 5, 800, 40, "th", "blocked", 0, [1, 2], 3⟩]).2,
        tile_key_matches 5 800 40 "th" "blocked" r = true →
          r.updated_at = 9)
      ∧ (∀ r ∈ [(⟨1, 5, 800, 40, "th", "blocked", 0, [1, 2], 3⟩ : TileRow)],
          tile_key_matches 5 800 40 "th" "blocked" r = false →
          r ∈ (get_cache_tiles 9 5 800 40 "th" "blocked"
            [⟨1, 5, 800, 40, "th", "blocked", 0, [1, 2], 3⟩]).2)) := by
  refine ⟨by decide, ?_⟩
  exact (get_cache_tiles_touch 9 5 800 40 "th" "blocked"
    [⟨1, 5, 800, 40, "th", "blocked", 0, [1, 2], 3⟩]).2 (by decide)

/-- At an input where a prefix does not occur, one prefix loop of
`block_remote_assets` returns immediately. -/
theorem block_asset_loop_nofind (pre : List Char) (q : Char) (fuel : Nat)
    (s : List Char) (h : find_sub s pre = none) :
    block_asset_loop pre q (fuel + 1) s 0 = (0, s) := by
  simp only [block_asset_loop, List.drop_zero, h]

/-- At an input where none of the scanned prefixes occurs, the whole
attribute pass of `block_remote_assets` leaves the string and the counter
unchanged. -/
theorem asset_fold_nofind (ps : List (List Char)) (s : List Char) (c : Nat)
    (h : ∀ p ∈ ps, find_sub s p = none) :
    ps.foldl
      (fun (acc : List Char × Nat) pre =>
        let quote := if pre.contains '"' then '"' else '\''
        let r := block_asset_loop pre quote (acc.1.length + 1) acc.1 0
        (r.2, acc.2 + r.1))
      (s, c) = (s, c) := by
  induction ps generalizing c with
  | nil => rfl
  | cons p ps ih =>
    have hp : find_sub s p = none := h p (List.mem_cons_self p ps)
    have hstep := block_asset_loop_nofind p
      (if p.contains '"' then '"' else '\'') s.length s hp
    rw [List.foldl_cons]
    dsimp only
    rw [hstep]
    dsimp only
    rw [Nat.add_zero]
    exact ih c (fun p' hp' => h p' (List.mem_cons_of_mem _ hp'))

/-- At an input where `url(` does not occur, the CSS pass of
`block_remote_assets` returns immediately. -/
theorem block_css_loop_nofind (fuel : Nat) (s : List Char)
    (h : find_sub s ("url(".data) = none) :
    block_css_loop (fuel + 1) s = (s, 0) := by
  simp only [block_css_loop, h]

set_option maxRecDepth 10000 in
/-- C7: counterexample to the claim's universally quantified half.  The
input below holds a `src=` reference to an `http://` URL, but the reference
is not quote-delimited, so `block_remote_assets` (the blocking pass
`prepare_html` applies when `allow_remote = false`; MIME parsing and
sanitisation are external crates) returns it unchanged with blocked count
0: the `http://` reference survives and no sentinel is introduced. -/
theorem remote_block_counterexample :
    block_remote_assets "<img src=http://e/x.png>".data
      = ("<img src=http://e/x.png>".data, 0)
    ∧ count_sub "<img src=http://e/x.png>".data "src=http://".data = 1
    ∧ count_sub (block_remote_assets "<img src=http://e/x.png>".data).1
        "ratmail-blocked://remote".data = 0 := by
  refine ⟨by decide, by decide, by decide⟩

set_option maxRecDepth 10000 in
/-- C7: corrected.  `block_remote_assets` rewrites only quote-delimited
references: any input free of the eight quoted `src=` / `background=`
http(s) patterns and of `url(` — in particular one whose http reference is
unquoted — is returned unchanged with blocked count 0, while on the spec's
scenario the output is exactly the string below with blocked count 2,
exactly two sentinel occurrences, and no surviving `http` reference. -/
theorem remote_block_quoted_only (s : List Char)
    (hpre : ∀ p ∈ remote_prefixes, find_sub s p = none)
    (hcss : find_sub s ("url(".data) = none) :
    block_remote_assets s = (s, 0)
    ∧ block_remote_assets ("<body><img src=\"https://a/b.png\">"
        ++ "<div style=\"background: url(https://c/d.png)\"></div></body>").data
      = (("<body><img src=\"ratmail-blocked://remote\"\">"
          ++ "<div style=\"background: url(\"ratmail-blocked://remote\")\">"
          ++ "</div></body>").data, 2)
    ∧ count_sub (block_remote_assets ("<body><img src=\"https://a/b.png\">"
        ++ "<div style=\"background: url(https://c/d.png)\"></div></body>").data).1
        "ratmail-blocked://remote".data = 2
    ∧ count_sub (block_remote_assets ("<body><img src=\"https://a/b.png\">"
        ++ "<div style=\"background: url(https://c/d.png)\"></div></body>").data).1
        "http".data = 0 := by
  refine ⟨?_, by decide, by decide, by decide⟩
  have hfold := asset_fold_nofind remote_prefixes s 0 hpre
  have hcssl := block_css_loop_nofind s.length s hcss
  simp only [block_remote_assets, block_remote_css_urls, hfold, hcssl,
    Nat.add_zero, Nat.zero_add]

/-- Witness for the corrected C7 theorem: the counterexample input carries
none of the quoted patterns, so it passes through unchanged. -/
theorem remote_block_quoted_only_witness :
    (∀ p ∈ remote_prefixes, find_sub "<img src=http://e/x.png>".data p = none)
    ∧ block_remote_assets "<img src=http://e/x.png>".data
        = ("<img src=http://e/x.png>".data, 0) :=
  ⟨by decide, (remote_block_quoted_only "<img src=http://e/x.png>".data
    (by decide) (by decide)).1⟩

theorem update_first_text_maps (out : List LinkInfoC) (url : List Char)
    (n : Option (List Char)) :
    (update_first_text out url n).map LinkInfoC.url = out.map LinkInfoC.url
    ∧ (update_first_text out url n).map LinkInfoC.from_html
        = out.map LinkInfoC.from_html := by
  induction out with
  | nil => exact ⟨rfl, rfl⟩
  | cons l rest ih =>
      unfold update_first_text
      by_cases h : l.url = url
      · rw [if_pos h]
        by_cases h2 : l.text = none ∧ n.isSome
        · rw [if_pos h2]
          exact ⟨by simp, by simp⟩
        · rw [if_neg h2]
          exact ⟨by simp, by simp⟩
      · rw [if_neg h]
        exact ⟨by simp [ih.1], by simp [ih.2]⟩

theorem anchor_fold_true (pairs : List (List Char × List Char)) :
    ∀ out : List LinkInfoC, (∀ l ∈ out, l.from_html = true) →
    ∀ l ∈ pairs.foldl anchor_step out, l.from_html = true := by
  induction pairs with
  | nil => exact fun out h => h
  | cons p rest ih =>
      intro out h
      apply ih
      intro l hl
      unfold anchor_step at hl
      by_cases hc : out.any (fun l => l.url = p.1) = true
      · rw [if_pos hc] at hl
        have hmap := (update_first_text_maps out p.1
          (normalize_link_text p.2)).2
        have hmem : l.from_html ∈ (update_first_text out p.1
            (normalize_link_text p.2)).map LinkInfoC.from_html :=
          List.mem_map_of_mem _ hl
        rw [hmap] at hmem
        obtain ⟨l0, hl0, heq⟩ := List.mem_map.mp hmem
        rw [← heq]
        exact h l0 hl0
      · rw [if_neg hc] at hl
        rcases List.mem_append.mp hl with hl | hl
        · exact h l hl
        · rw [List.mem_singleton.mp hl]

theorem anchor_fold_urls (pairs : List (List Char × List Char)) :
    ∀ (out : List LinkInfoC) (u : List Char),
    (u ∈ pairs.map Prod.fst ∨ u ∈ out.map LinkInfoC.url) →
    u ∈ (pairs.foldl anchor_step out).map LinkInfoC.url := by
  induction pairs with
  | nil =>
      intro out u h
      rcases h with h | h
      · simp at h
      · exact h
  | cons p rest ih =>
      intro out u h
      apply ih
      have hstep : ∀ v : List Char, v ∈ out.map LinkInfoC.url ∨ v = p.1 →
          v ∈ (anchor_step out p).map LinkInfoC.url := by
        intro v hv
        unfold anchor_step
        by_cases hc : out.any (fun l => l.url = p.1) = true
        · rw [if_pos hc,
            (update_first_text_maps out p.1 (normalize_link_text p.2)).1]
          rcases hv with hv | rfl
          · exact hv
          · obtain ⟨l0, hl0, hl0u⟩ := by
              simpa using List.any_eq_true.mp hc
            exact List.mem_map.mpr ⟨l0, hl0, hl0u⟩
        · rw [if_neg hc, List.map_append]
          rcases hv with hv | rfl
          · exact List.mem_append_left _ hv
          · exact List.mem_append_right _ (by simp)
      rcases h with h | h
      · rw [List.map_cons] at h
        rcases List.mem_cons.mp h with rfl | h
        · exact Or.inr (hstep p.1 (Or.inr rfl))
        · exact Or.inl h
      · exact Or.inr (hstep u (Or.inl h))

theorem text_fold_anchor_true (anchorUrls : List (List Char))
    (urls : List (List Char)) :
    ∀ out : List LinkInfoC,
    (∀ l ∈ out, l.url ∈ anchorUrls → l.from_html = true) →
    (∀ u ∈ anchorUrls, u ∈ out.map LinkInfoC.url) →
    ∀ l ∈ urls.foldl text_link_step out,
      l.url ∈ anchorUrls → l.from_html = true := by
  induction urls with
  | nil => exact fun out h1 _ => h1
  | cons u rest ih =>
      intro out h1 h2
      apply ih
      · intro l hl hmem
        unfold text_link_step at hl
        by_cases hc : out.any (fun l => l.url = u) = true
        · rw [if_pos hc] at hl
          exact h1 l hl hmem
        · rw [if_neg hc] at hl
          rcases List.mem_append.mp hl with hl | hl
          · exact h1 l hl hmem
          · have hlu := List.mem_singleton.mp hl
            subst hlu
            exfalso
            have humem : u ∈ out.map LinkInfoC.url := h2 u hmem
            obtain ⟨l0, hl0, hl0u⟩ := List.mem_map.mp humem
            exact absurd (List.any_eq_true.mpr ⟨l0, hl0, by simp [hl0u]⟩) hc
      · intro v hv
        unfold text_link_step
        by_cases hc : out.any (fun l => l.url = u) = true
        · rw [if_pos hc]
          exact h2 v hv
        · rw [if_neg hc, List.map_append]
          exact List.mem_append_left _ (h2 v hv)

/-- C9: `best_link_text` chooses the anchor's link text by exactly the
precedence inner text → tag `aria-label` → tag `title` → inner `alt` →
inner `title` (non-empty inner text always wins), and every link that
`extract_links` records from an anchor of the HTML carries
`from_html = true`. -/
theorem link_text_precedence :
    (∀ tag inner t, normalize_link_text inner = some t →
        best_link_text tag inner = t)
    ∧ (∀ tag inner v, normalize_link_text inner = none →
        extract_attr_value tag "aria-label".data = some v →
        best_link_text tag inner = v)
    ∧ (∀ tag inner v, normalize_link_text inner = none →
        extract_attr_value tag "aria-label".data = none →
        extract_attr_value tag "title".data = some v →
        best_link_text tag inner = v)
    ∧ (∀ tag inner v, normalize_link_text inner = none →
        extract_attr_value tag "aria-label".data = none →
        extract_attr_value tag "title".data = none →
        extract_attr_value inner "alt".data = some v →
        best_link_text tag inner = v)
    ∧ (∀ tag inner v, normalize_link_text inner = none →
        extract_attr_value tag "aria-label".data = none →
        extract_attr_value tag "title".data = none →
        extract_attr_value inner "alt".data = none →
        extract_attr_value inner "title".data = some v →
        best_link_text tag inner = v)
    ∧ (∀ (finder : List Char → List (List Char)) (text html : List Char)
        (l : LinkInfoC),
        l ∈ extract_links finder text (some html) →
        l.url ∈ (extract_href_links_with_text html).map Prod.fst →
        l.from_html = true) := by
  refine ⟨?_, ?_, ?_, ?_, ?_, ?_⟩
  · intro tag inner t h1
    unfold best_link_text
    rw [h1]
  · intro tag inner v h1 h2
    unfold best_link_text
    rw [h1, h2]
    rfl
  · intro tag inner v h1 h2 h3
    unfold best_link_text
    rw [h1, h2, h3]
    rfl
  · intro tag inner v h1 h2 h3 h4
    unfold best_link_text
    rw [h1, h2, h3, h4]
    rfl
  · intro tag inner v h1 h2 h3 h4 h5
    unfold best_link_text
    rw [h1, h2, h3, h4, h5]
    rfl
  · intro finder text html l hl hurl
    unfold extract_links at hl
    refine text_fold_anchor_true
      ((extract_href_links_with_text html).map Prod.fst) (finder text) _
      ?_ ?_ l hl hurl
    · intro l0 hl0 _
      exact anchor_fold_true _ [] (by simp) l0 hl0
    · intro u hu
      exact anchor_fold_urls _ [] u (Or.inl hu)

/-- Witness for C9: with empty inner text, the tag's `aria-label` wins. -/
theorem link_text_precedence_witness :
    best_link_text ("<a href=\"u\" aria-label=\"Go\">").data
      ("<img src=\"y\">").data = "Go".data :=
  link_text_precedence.2.1 ("<a href=\"u\" aria-label=\"Go\">").data
    ("<img src=\"y\">").data "Go".data (by decide) (by decide)

end Ratmail
